import Mathlib

/-!
Verification of the "dual" discussion app core: the directive parser
(`parseAIResponse` / `robustJsonParse`), the document patch engine
(`applyNotepadModifications` / `findHeaderLineIndex`) and the step executor
(`executeStep` retry/cancellation loop).  JS strings are embedded as Lean
`String` (a wrapper around `List Char`); every operation is translated from
the TypeScript source, working on the underlying character list.
-/

namespace Dual

/-- JS whitespace class (`\s` in regexes without the `u` flag, and the set
trimmed by `String.prototype.trim`): ASCII whitespace, NBSP, BOM, the
unicode space separators and the line separators. -/
def isJsWs (c : Char) : Bool :=
  c = ' ' || c = '\t' || c = '\n' || c = '\r' || c.val = 0x0b || c.val = 0x0c ||
  c.val = 0xa0 || c.val = 0x1680 || (0x2000 ≤ c.val && c.val ≤ 0x200a) ||
  c.val = 0x2028 || c.val = 0x2029 || c.val = 0x202f || c.val = 0x205f ||
  c.val = 0x3000 || c.val = 0xfeff

/-- Drop the longest suffix whose characters satisfy `p`. -/
def dropTrailWhile (p : Char → Bool) (l : List Char) : List Char :=
  (l.reverse.dropWhile p).reverse

/-- `String.prototype.trim` on a character list. -/
def trimBoth (l : List Char) : List Char :=
  dropTrailWhile isJsWs (l.dropWhile isJsWs)

/-- `s.trim()` for JS strings embedded as `String`. -/
def jsTrim (s : String) : String := ⟨trimBoth s.data⟩

/-- `needle` is a prefix of `hay` (JS `String.prototype.startsWith`-style). -/
def startsWithL : List Char → List Char → Bool
  | [], _ => true
  | _ :: _, [] => false
  | n :: ns, h :: hs => n = h && startsWithL ns hs

/-- First index at which `needle` occurs in the remaining list, offset by `i`
(JS `String.prototype.indexOf`). -/
def idxAux (needle : List Char) : List Char → Nat → Option Nat
  | [], i => if needle.isEmpty then some i else none
  | c :: t, i => if startsWithL needle (c :: t) then some i else idxAux needle t (i + 1)

/-- JS `hay.indexOf(needle)`, `none` for `-1`. -/
def indexOfSub (hay needle : List Char) : Option Nat := idxAux needle hay 0

/-- JS `hay.includes(needle)`. -/
def occursIn (hay needle : List Char) : Bool := (indexOfSub hay needle).isSome

/-- JS `hay.lastIndexOf(needle)` (search whole string), `none` for `-1`. -/
def lastIdxAux (needle : List Char) : List Char → Nat → Option Nat → Option Nat
  | [], i, best => if needle.isEmpty then some i else best
  | c :: t, i, best =>
      lastIdxAux needle t (i + 1) (if startsWithL needle (c :: t) then some i else best)

/-- JS `hay.lastIndexOf(needle)`. -/
def lastIndexOfSub (hay needle : List Char) : Option Nat := lastIdxAux needle hay 0 none

/-- JS `hay.lastIndexOf(ch, bound)`: last position `≤ bound` holding `ch`. -/
def lastCharIdxLE (ch : Char) (bound : Nat) : List Char → Nat → Option Nat → Option Nat
  | [], _, best => best
  | c :: t, i, best =>
      if i > bound then best
      else lastCharIdxLE ch bound t (i + 1) (if c = ch then some i else best)

/-- JS `hay.replace(needleString, repl)`: splice `repl` over the first literal
occurrence of `needle` (`$`-substitution patterns in `repl` are not used by
the program and are not modelled). -/
def replaceFirstLiteral (hay needle repl : List Char) : List Char :=
  match indexOfSub hay needle with
  | none => hay
  | some i => hay.take i ++ repl ++ hay.drop (i + needle.length)

/-- Fueled worker for global literal replacement, mirroring a JS global regex
replace whose pattern is an escaped (hence literal) string. -/
def rAllAux (needle repl : List Char) : Nat → List Char → List Char
  | 0, rest => rest
  | f + 1, hay =>
    if needle.isEmpty then
      match hay with
      | [] => repl
      | c :: t => repl ++ c :: rAllAux needle repl f t
    else if startsWithL needle hay then repl ++ rAllAux needle repl f (hay.drop needle.length)
    else
      match hay with
      | [] => []
      | c :: t => c :: rAllAux needle repl f t

/-- JS `hay.replace(new RegExp(escapedNeedle, 'g'), repl)`: since the pattern
is the regex-escaped form of `needle` it matches exactly the literal
`needle`, so this is global literal replacement. -/
def replaceAllLiteral (hay needle repl : List Char) : List Char :=
  rAllAux needle repl (hay.length + 1) hay

/-- JS `s.split('\n')`: fields between newline separators (an empty string
yields one empty field, like JS). -/
def splitLines : List Char → List (List Char)
  | [] => [[]]
  | c :: rest =>
      if c = '\n' then [] :: splitLines rest
      else
        match splitLines rest with
        | [] => [[c]]
        | l :: ls => (c :: l) :: ls

/-- JS `arr.join('\n')` on line lists. -/
def joinLines : List (List Char) → List Char
  | [] => []
  | [l] => l
  | l :: l' :: ls => l ++ '\n' :: joinLines (l' :: ls)

/-- The global replace `.replace(/\n{3,}/g, '\n\n')`: every maximal run of
three or more newlines is rewritten to exactly two (greedy matching makes
each regex match a maximal newline run; the replacement never creates a new
run, so a left-to-right scan shrinking long runs is the same function). -/
def collapse : List Char → List Char
  | [] => []
  | [a] => [a]
  | [a, b] => [a, b]
  | a :: b :: c :: rest =>
      if a = '\n' && b = '\n' && c = '\n' then collapse (b :: c :: rest)
      else a :: collapse (b :: c :: rest)

/-- Whether the text contains three consecutive newline characters. -/
def hasTripleNL : List Char → Bool
  | [] => false
  | [_] => false
  | [_, _] => false
  | a :: b :: c :: rest => (a = '\n' && b = '\n' && c = '\n') || hasTripleNL (b :: c :: rest)

/-- Whether a line list contains three consecutive blank (empty) lines. -/
def containsTripleBlank : List (List Char) → Bool
  | [] => false
  | [_] => false
  | [_, _] => false
  | a :: b :: c :: rest => (a.isEmpty && b.isEmpty && c.isEmpty) || containsTripleBlank (b :: c :: rest)

/-! ### JSON values and `JSON.parse` -/

/-- Runtime JSON value, as produced by `JSON.parse`.  Numbers keep their
source lexeme (the program never inspects numeric values). -/
inductive JsValue where
  | jnull
  | jbool (b : Bool)
  | jnum (lexeme : String)
  | jstr (s : String)
  | jarr (items : List JsValue)
  | jobj (props : List (String × JsValue))

/-- JSON whitespace (the only whitespace `JSON.parse` accepts). -/
def jsonWs (c : Char) : Bool := c = ' ' || c = '\t' || c = '\n' || c = '\r'

/-- Tokens of the JSON grammar. -/
inductive JTok where
  | lbrace | rbrace | lbrack | rbrack | colon | comma
  | str (s : String)
  | num (lexeme : String)
  | tru | fls | nul

/-- Value of a hex digit. -/
def hexDigitVal (c : Char) : Option Nat :=
  let n := c.toNat
  if 48 ≤ n && n ≤ 57 then some (n - 48)
  else if 97 ≤ n && n ≤ 102 then some (n - 87)
  else if 65 ≤ n && n ≤ 70 then some (n - 55)
  else none

/-- Four hex digits (for `\uXXXX` escapes). -/
def lexHex4 : List Char → Option (Nat × List Char)
  | a :: b :: c :: d :: rest =>
    match hexDigitVal a, hexDigitVal b, hexDigitVal c, hexDigitVal d with
    | some x, some y, some z, some w => some (((x * 16 + y) * 16 + z) * 16 + w, rest)
    | _, _, _, _ => none
  | _ => none

/-- Single-character JSON string escapes. -/
def escChar (c : Char) : Option Char :=
  if c = '"' then some '"'
  else if c = '\\' then some '\\'
  else if c = '/' then some '/'
  else if c = 'b' then some (Char.ofNat 0x08)
  else if c = 'f' then some (Char.ofNat 0x0c)
  else if c = 'n' then some '\n'
  else if c = 'r' then some '\r'
  else if c = 't' then some '\t'
  else none

/-- Lex a JSON string body after the opening quote; yields the decoded
characters and the remaining input after the closing quote.  (A `\uXXXX`
escape decodes to the code point directly; lone UTF-16 surrogates, which
Lean's `Char` cannot hold, decode to the null replacement of
`Char.ofNat` — the program's inputs never use them.) -/
def lexStrAux : Nat → List Char → Option (List Char × List Char)
  | 0, _ => none
  | f + 1, cs =>
    match cs with
    | [] => none
    | c :: t =>
      if c = '"' then some ([], t)
      else if c = '\\' then
        match t with
        | [] => none
        | e :: t' =>
          if e = 'u' then
            match lexHex4 t' with
            | none => none
            | some (v, rest) =>
              match lexStrAux f rest with
              | none => none
              | some (body, rest') => some (Char.ofNat v :: body, rest')
          else
            match escChar e with
            | none => none
            | some ch =>
              match lexStrAux f t' with
              | none => none
              | some (body, rest') => some (ch :: body, rest')
      else if c.val < 0x20 then none
      else
        match lexStrAux f t with
        | none => none
        | some (body, rest') => some (c :: body, rest')

/-- ASCII digit test. -/
def isDig (c : Char) : Bool := '0' ≤ c && c ≤ '9'

/-- Lex a JSON number starting at the current position; yields the lexeme
and the rest.  Grammar: `-?(0|[1-9][0-9]*)(\.[0-9]+)?([eE][+-]?[0-9]+)?`. -/
def lexNum (cs : List Char) : Option (List Char × List Char) :=
  let (sgn, cs1) : List Char × List Char :=
    match cs with
    | '-' :: t => (['-'], t)
    | _ => ([], cs)
  match cs1 with
  | [] => none
  | c :: t =>
    if c = '0' then
      lexNumFrac (sgn ++ ['0']) t
    else if isDig c then
      let ds := t.takeWhile isDig
      lexNumFrac (sgn ++ c :: ds) (t.drop ds.length)
    else none
where
  /-- Optional fraction part, then exponent. -/
  lexNumFrac (acc : List Char) (cs : List Char) : Option (List Char × List Char) :=
    match cs with
    | '.' :: t =>
      let ds := t.takeWhile isDig
      if ds.isEmpty then none
      else lexNumExp (acc ++ '.' :: ds) (t.drop ds.length)
    | _ => lexNumExp acc cs
  /-- Optional exponent part. -/
  lexNumExp (acc : List Char) (cs : List Char) : Option (List Char × List Char) :=
    match cs with
    | c :: t =>
      if c = 'e' || c = 'E' then
        let (s, t1) : List Char × List Char :=
          match t with
          | '+' :: t' => (['+'], t')
          | '-' :: t' => (['-'], t')
          | _ => ([], t)
        let ds := t1.takeWhile isDig
        if ds.isEmpty then none
        else some (acc ++ c :: (s ++ ds), t1.drop ds.length)
      else some (acc, c :: t)
    | [] => some (acc, [])

/-- Tokenize a JSON text. -/
def jlex : Nat → List Char → Option (List JTok)
  | 0, _ => none
  | f + 1, cs =>
    let cs1 := cs.dropWhile jsonWs
    match cs1 with
    | [] => some []
    | c :: t =>
      if c = '{' then (jlex f t).map (JTok.lbrace :: ·)
      else if c = '}' then (jlex f t).map (JTok.rbrace :: ·)
      else if c = '[' then (jlex f t).map (JTok.lbrack :: ·)
      else if c = ']' then (jlex f t).map (JTok.rbrack :: ·)
      else if c = ':' then (jlex f t).map (JTok.colon :: ·)
      else if c = ',' then (jlex f t).map (JTok.comma :: ·)
      else if c = '"' then
        match lexStrAux (t.length + 1) t with
        | none => none
        | some (body, rest) => (jlex f rest).map (JTok.str ⟨body⟩ :: ·)
      else if c = '-' || isDig c then
        match lexNum cs1 with
        | none => none
        | some (lexeme, rest) => (jlex f rest).map (JTok.num ⟨lexeme⟩ :: ·)
      else if startsWithL "true".data cs1 then (jlex f (cs1.drop 4)).map (JTok.tru :: ·)
      else if startsWithL "false".data cs1 then (jlex f (cs1.drop 5)).map (JTok.fls :: ·)
      else if startsWithL "null".data cs1 then (jlex f (cs1.drop 4)).map (JTok.nul :: ·)
      else none

/-- Stack frames of the shift/reduce JSON parser. -/
inductive JFrame where
  | arrF (acc : List JsValue)
  | objF (acc : List (String × JsValue)) (key : String)

/-- Parser mode: expecting a value, or holding a just-completed value. -/
inductive JMode where
  | wantVal
  | haveVal (v : JsValue)

/-- Shift/reduce parser over the token stream: accepts exactly the JSON
grammar (one value, all tokens consumed). -/
def jrun : Nat → List JTok → List JFrame → JMode → Option JsValue
  | 0, _, _, _ => none
  | f + 1, ts, stk, .wantVal =>
    match ts with
    | [] => none
    | tok :: ts' =>
      match tok with
      | .str s => jrun f ts' stk (.haveVal (.jstr s))
      | .num s => jrun f ts' stk (.haveVal (.jnum s))
      | .tru => jrun f ts' stk (.haveVal (.jbool true))
      | .fls => jrun f ts' stk (.haveVal (.jbool false))
      | .nul => jrun f ts' stk (.haveVal .jnull)
      | .lbrack =>
        match ts' with
        | .rbrack :: ts'' => jrun f ts'' stk (.haveVal (.jarr []))
        | _ => jrun f ts' (.arrF [] :: stk) .wantVal
      | .lbrace =>
        match ts' with
        | .rbrace :: ts'' => jrun f ts'' stk (.haveVal (.jobj []))
        | .str k :: .colon :: ts'' => jrun f ts'' (.objF [] k :: stk) .wantVal
        | _ => none
      | _ => none
  | f + 1, ts, stk, .haveVal v =>
    match stk with
    | [] =>
      match ts with
      | [] => some v
      | _ => none
    | .arrF acc :: stk' =>
      match ts with
      | .comma :: ts' => jrun f ts' (.arrF (acc ++ [v]) :: stk') .wantVal
      | .rbrack :: ts' => jrun f ts' stk' (.haveVal (.jarr (acc ++ [v])))
      | _ => none
    | .objF acc k :: stk' =>
      match ts with
      | .comma :: .str k2 :: .colon :: ts' =>
          jrun f ts' (.objF (acc ++ [(k, v)]) k2 :: stk') .wantVal
      | .rbrace :: ts' => jrun f ts' stk' (.haveVal (.jobj (acc ++ [(k, v)])))
      | _ => none

/-- `JSON.parse`: `none` models a thrown `SyntaxError`. -/
def jsonParse (s : String) : Option JsValue :=
  match jlex (s.data.length + 1) s.data with
  | none => none
  | some ts => jrun (2 * ts.length + 4) ts [] .wantVal

/-- JS property access `v[k]` on a parsed JSON value (objects only; later
duplicate keys win, as in `JSON.parse`). -/
def jsGetField : JsValue → String → Option JsValue
  | .jobj fs, k => (fs.reverse.find? (fun p => p.1 == k)).map (·.2)
  | _, _ => none

/-- `parsed && typeof parsed === 'object'`: `null` is falsy, and only
objects and arrays have `typeof` `'object'`. -/
def isObjLike : Option JsValue → Bool
  | some (.jobj _) => true
  | some (.jarr _) => true
  | _ => false

/-- The `.replace(/,(\s*[}\]])/g, '$1')` repair: each comma followed by
optional whitespace and a closing brace/bracket is dropped (the captured
whitespace and bracket are kept); scanning resumes after the bracket. -/
def sTCAux : Nat → List Char → List Char
  | 0, rest => rest
  | f + 1, cs =>
    match cs with
    | [] => []
    | c :: t =>
      if c = ',' then
        let ws := t.takeWhile isJsWs
        let after := t.drop ws.length
        match after with
        | b :: after' =>
          if b = '}' || b = ']' then ws ++ b :: sTCAux f after'
          else c :: sTCAux f t
        | [] => c :: sTCAux f t
      else c :: sTCAux f t

/-- Remove trailing commas before a closing brace/bracket. -/
def stripTrailingCommas (s : String) : String := ⟨sTCAux (s.data.length + 1) s.data⟩

/-- JS line terminators (`$` anchors and the complement of `.`). -/
def isLineTerm (c : Char) : Bool :=
  c = '\n' || c = '\r' || c.val = 0x2028 || c.val = 0x2029

/-- The `.replace(/\/\/.*$/gm, '')` repair: from each `//` cut to the end of
the line (the terminator is kept).  The regex is string-blind, so `//`
inside JSON strings is cut too — as in the source. -/
def sLCAux : Nat → List Char → List Char
  | 0, rest => rest
  | f + 1, cs =>
    match cs with
    | [] => []
    | c :: t =>
      if c = '/' && t.head? = some '/' then
        sLCAux f ((c :: t).dropWhile (fun x => !isLineTerm x))
      else c :: sLCAux f t

/-- Remove `// ...` line comments. -/
def stripLineComments (s : String) : String := ⟨sLCAux (s.data.length + 1) s.data⟩

/-- The `.replace(/\/\*[\s\S]*?\*\//g, '')` repair: each `/*` is cut
through the nearest `*/`; a `/*` with no closing `*/` is left in place. -/
def sBCAux : Nat → List Char → List Char
  | 0, rest => rest
  | f + 1, cs =>
    match cs with
    | [] => []
    | c :: t =>
      if c = '/' && t.head? = some '*' then
        match indexOfSub (t.drop 1) "*/".data with
        | some i => sBCAux f ((t.drop 1).drop (i + 2))
        | none => c :: sBCAux f t
      else c :: sBCAux f t

/-- Remove `/* ... */` block comments. -/
def stripBlockComments (s : String) : String := ⟨sBCAux (s.data.length + 1) s.data⟩

/-- `robustJsonParse`: try `JSON.parse` as-is, then with trailing commas
stripped, then with comments stripped as well; `none` models the final
`return null` (also returned directly for the empty string). -/
def robustJsonParse (jsonStr : String) : Option JsValue :=
  if jsonStr.data.isEmpty then none
  else
    match jsonParse jsonStr with
    | some v => some v
    | none =>
      let cleaned := stripTrailingCommas jsonStr
      match jsonParse cleaned with
      | some v => some v
      | none => jsonParse (stripBlockComments (stripLineComments cleaned))


/-! ### The directive parser `parseAIResponse` -/

/-- The three-backtick fence delimiter. -/
def fenceTicks : List Char := ['`', '`', '`']

/-- Case-insensitive `json` tag test (the regex has the `i` flag). -/
def startsWithJsonCI (cs : List Char) : Bool :=
  startsWithL "json".data ((cs.take 4).map Char.toLower)

/-- One scan step of `responseText.matchAll(/```(?:json)?\s*([\s\S]*?)\s*```/gi)`.
At a position starting with ``` the optional `json` tag is consumed when
present; the lazy body together with the greedy `\s*` paddings makes the
match end at the first following ``` and the capture the whitespace-trimmed
text between tag and closing fence.  On failure the scan advances one
character; after a match it resumes at the match end. -/
def fenceScan : Nat → List Char → List (List Char × List Char)
  | 0, _ => []
  | f + 1, cs =>
    match cs with
    | [] => []
    | _ :: t =>
      if startsWithL fenceTicks cs then
        let r1 := cs.drop 3
        let jlen := if startsWithJsonCI r1 then 4 else 0
        let r2 := r1.drop jlen
        match indexOfSub r2 fenceTicks with
        | some m =>
          let capture := trimBoth (r2.take m)
          let total := 3 + jlen + m + 3
          (cs.take total, capture) :: fenceScan f (cs.drop total)
        | none => fenceScan f t
      else fenceScan f t

/-- All fenced-code-block matches of the parser's regex, in order, as
(full match, capture group) pairs. -/
def fenceMatches (cs : List Char) : List (List Char × List Char) :=
  fenceScan (cs.length + 1) cs

/-- The two known JSON field names of the heuristic search. -/
def knownKey1 : List Char := "\"notepad_modifications\"".data

/-- The second known JSON field name. -/
def knownKey2 : List Char := "\"discussion_complete\"".data

/-- Strategy 2 of `parseAIResponse`: the heuristic candidate.  Find the last
occurrence of either known key, scan back to the nearest `{` and forward to
the last `}` of the whole reply; the candidate doubles as the text to
remove. -/
def heuristicCandidate (cs : List Char) : Option (List Char × List Char) :=
  let l1 : Int := match lastIndexOfSub cs knownKey1 with | some n => (n : Int) | none => -1
  let l2 : Int := match lastIndexOfSub cs knownKey2 with | some n => (n : Int) | none => -1
  let lastKeyIndex := if l2 > l1 then l2 else l1
  if lastKeyIndex = -1 then none
  else
    let ob := lastCharIdxLE '{' lastKeyIndex.toNat cs 0 none
    let cb := lastIdxAux ['}'] cs 0 none
    match ob, cb with
    | some o, some cl =>
      if cl > o then
        let cand := (cs.drop o).take (cl + 1 - o)
        some (cand, cand)
      else none
    | _, _ => none

/-- The parser's selected candidate and text-to-remove: the last fenced
block's capture when any fenced block matched, else the heuristic. -/
def selectedCandidate (cs : List Char) : Option (List Char × List Char) :=
  match (fenceMatches cs).getLast? with
  | some m => some (m.2, m.1)
  | none => heuristicCandidate cs

/-- `NotepadUpdatePayload`'s non-null form: `{modifications?, error?}`.
Directive entries are the raw JSON array elements — the parser does not
validate them. -/
structure NotepadUpdate where
  modifications : Option (List JsValue)
  error : Option String

/-- `ParsedAIResponse`. -/
structure ParsedAIResponse where
  spokenText : String
  notepadUpdate : Option NotepadUpdate
  discussionShouldEnd : Bool

/-- The extraction stage of `parseAIResponse`: directives, end signal,
parse error and the spoken text before the empty-reply placeholders.
Mirrors the source: the candidate must be truthy (non-empty); a failed or
non-object robust parse records the error only when a fenced block was
present; on success the candidate text is removed from the reply
(exact-suffix removal preferred) and the result trimmed. -/
def extractedOf (cs : List Char) : List JsValue × Bool × Option String × List Char :=
  let matchCount := (fenceMatches cs).length
  match selectedCandidate cs with
  | none => ([], false, none, cs)
  | some (jsonCandidate, textToRemove) =>
    if jsonCandidate.isEmpty then ([], false, none, cs)
    else
      let parsed := robustJsonParse ⟨jsonCandidate⟩
      if isObjLike parsed then
        let mods :=
          match parsed with
          | some p =>
            match jsGetField p "notepad_modifications" with
            | some (.jarr l) => l
            | _ => []
          | none => []
        let dse :=
          match parsed with
          | some p =>
            match jsGetField p "discussion_complete" with
            | some (.jbool b) => b
            | _ => false
          | none => false
        let spoken :=
          if startsWithL textToRemove.reverse cs.reverse then
            trimBoth (cs.take (cs.length - textToRemove.length))
          else trimBoth (replaceFirstLiteral cs textToRemove [])
        (mods, dse, none, spoken)
      else if matchCount > 0 then
        ([], false, some "Failed to parse AI JSON response.", cs)
      else ([], false, none, cs)

/-- `parseAIResponse`: extract the trailing JSON directive block from raw
model text, then build the status placeholder for an empty visible reply
and the `notepadUpdate` payload. -/
def parseAIResponse (responseText : String) : ParsedAIResponse :=
  let cs := responseText.data
  match extractedOf cs with
  | (notepadModifications, discussionShouldEnd, parsingError, spokenText0) =>
    let notepadActionText : String :=
      if notepadModifications.length > 0 then
        let n := notepadModifications.length
        s!"修改了记事本 ({n} 项操作)"
      else ""
    let discussionActionText : String := if discussionShouldEnd then "建议结束讨论" else ""
    let spokenText : List Char :=
      if (trimBoth spokenText0).isEmpty then
        if !notepadActionText.isEmpty && !discussionActionText.isEmpty then
          ("(AI " ++ notepadActionText ++ "并" ++ discussionActionText ++ ")").data
        else if !notepadActionText.isEmpty then ("(AI " ++ notepadActionText ++ ")").data
        else if !discussionActionText.isEmpty then ("(AI " ++ discussionActionText ++ ")").data
        else if parsingError.isNone && (notepadModifications.length > 0 || discussionShouldEnd) then
          "(AI process complete)".data
        else spokenText0
      else spokenText0
    let notepadUpdate : Option NotepadUpdate :=
      if notepadModifications.length > 0 || parsingError.isSome then
        some ⟨if notepadModifications.length > 0 then some notepadModifications else none,
              parsingError⟩
      else none
    ⟨⟨spokenText⟩, notepadUpdate, discussionShouldEnd⟩

/-- The recorded parse error of a parsed response (it is stored inside the
notepad-update payload). -/
def parsingErrorOf (r : ParsedAIResponse) : Option String :=
  match r.notepadUpdate with
  | some u => u.error
  | none => none


/-! ### The header resolver `findHeaderLineIndex` -/

/-- Characters stripped from the front by `normalize`
(`/^[#\s*_-]+/`: hashes, whitespace, asterisks, underscores, dashes). -/
def isLeadMarker (c : Char) : Bool :=
  c = '#' || isJsWs c || c = '*' || c = '_' || c = '-'

/-- Characters stripped from the back by `normalize` (`/[*_~]+$/`). -/
def isTrailMarker (c : Char) : Bool := c = '*' || c = '_' || c = '~'

/-- Smart-quote and full-width-colon normalization
(`/[“”]/g → "`, `/[‘’]/g → '`, `/[：]/g → :`). -/
def smartMap (c : Char) : Char :=
  if c = '“' || c = '”' then '"'
  else if c = '‘' || c = '’' then '\''
  else if c = '：' then ':'
  else c

/-- Trailing punctuation class `[:：.。.]` (one char removed, not a run). -/
def isTrailPunct (c : Char) : Bool := c = ':' || c = '：' || c = '.' || c = '。'

/-- The resolver's `normalize` helper: strip leading markers, trailing
emphasis markers, trim, lowercase (ASCII, as the program's headers use
ASCII or CJK which `toLowerCase` leaves unchanged), normalize smart quotes
and the full-width colon, drop one trailing punctuation char, trim. -/
def normalize (s : List Char) : List Char :=
  let s1 := s.dropWhile isLeadMarker
  let s2 := dropTrailWhile isTrailMarker s1
  let s3 := trimBoth s2
  let s4 := (s3.map Char.toLower).map smartMap
  let s5 :=
    match s4.getLast? with
    | some c => if isTrailPunct c then s4.dropLast else s4
    | none => s4
  trimBoth s5

/-- `\w` without the unicode flag: `[A-Za-z0-9_]`. -/
def isWordChar (c : Char) : Bool :=
  let n := c.toNat
  (97 ≤ n && n ≤ 122) || (65 ≤ n && n ≤ 90) || (48 ≤ n && n ≤ 57) || c = '_'

/-- CJK ideograph range `一-龥`. -/
def isCJK (c : Char) : Bool := 0x4e00 ≤ c.val && c.val ≤ 0x9fa5

/-- The resolver's `superClean` helper: keep only word characters and CJK
ideographs (`/[^\w一-龥]/g → ''`). -/
def superClean (s : List Char) : List Char :=
  s.filter (fun c => isWordChar c || isCJK c)

/-- A two-character bold delimiter (`**` or `__`). -/
def isBoldDelim (l : List Char) : Bool := l = ['*', '*'] || l = ['_', '_']

/-- Match of `/^(\*\*|__)(.*?)(\*\*|__)\s*$/` on an already-trimmed line:
the lazy middle forces the closing delimiter to sit at the very end, so the
line is bold iff it has length ≥ 4 and starts and ends with a delimiter. -/
def isBoldLine (line : List Char) : Bool :=
  decide (line.length ≥ 4) && isBoldDelim (line.take 2) &&
    isBoldDelim ((line.reverse.take 2).reverse)

/-- Classify one line of the resolver's main loop: `none` for blank lines
and for non-header long lines, otherwise the candidate header text and its
level (marker count for `#` headers, 4 for bold lines, 3 for short generic
lines). -/
def classifyLine (lraw : List Char) : Option (List Char × Nat) :=
  let line := trimBoth lraw
  if line.isEmpty then none
  else
    let hashes := line.takeWhile (fun c => c = '#')
    if !hashes.isEmpty then
      some (trimBoth ((line.drop hashes.length).dropWhile isJsWs), hashes.length)
    else if isBoldLine line then
      some (trimBoth ((line.drop 2).dropLast.dropLast), 4)
    else if decide (line.length < 100) then some (line, 3)
    else none

/-- The resolver's three-step match test against a candidate header text:
exact normalized match; substring either way (target length > 2); aggressive
match on the super-cleaned forms (both lengths > 2). -/
def lineMatches (nt sct ht : List Char) : Bool :=
  let nh := normalize ht
  let sch := superClean nh
  nh == nt ||
  (decide (nt.length > 2) && (occursIn nh nt || occursIn nt nh)) ||
  (decide (sct.length > 2) && decide (sch.length > 2) &&
    (sch == sct || occursIn sch sct || occursIn sct sch))

/-- Main loop of the resolver: first line whose classified header text is
non-empty and matches. -/
def scanHeaders (nt sct : List Char) : List (List Char) → Nat → Option (Nat × Nat)
  | [], _ => none
  | l :: rest, i =>
    match classifyLine l with
    | some (ht, lvl) =>
      if !ht.isEmpty && lineMatches nt sct ht then some (i, lvl)
      else scanHeaders nt sct rest (i + 1)
    | none => scanHeaders nt sct rest (i + 1)

/-- Last-resort pass: first non-blank line whose lowercased trimmed text
contains (or is contained in) the normalized target. -/
def fallbackScan (nt : List Char) : List (List Char) → Nat → Option Nat
  | [], _ => none
  | l :: rest, i =>
    let line := (trimBoth l).map Char.toLower
    if !line.isEmpty && (occursIn line nt || occursIn nt line) then some i
    else fallbackScan nt rest (i + 1)

/-- `findHeaderLineIndex`: `(-1, 0)` models the not-found result. -/
def findHeaderLineIndex (lines : List (List Char)) (targetHeader : List Char) : Int × Nat :=
  if targetHeader.isEmpty then (-1, 0)
  else
    let nt := normalize targetHeader
    let sct := superClean nt
    if nt.isEmpty && sct.isEmpty then (-1, 0)
    else
      match scanHeaders nt sct lines 0 with
      | some (i, lvl) => ((i : Int), lvl)
      | none =>
        match fallbackScan nt lines 0 with
        | some i => ((i : Int), 2)
        | none => (-1, 0)

/-! ### The patch engine `applyNotepadModifications` -/

/-- Level of a section-boundary line: `/^(#+)\s/` on the trimmed line. -/
def headerLevelL (l : List Char) : Option Nat :=
  let t := trimBoth l
  let hs := t.takeWhile (fun c => c = '#')
  if hs.isEmpty then none
  else
    match (t.drop hs.length).head? with
    | some c => if isJsWs c then some hs.length else none
    | none => none

/-- The boundary loop shared by `replace_section` and `append_to_section`:
first index after `start` whose line is a header of level ≤ `lvl`, else the
number of lines. -/
def sectionEndAux (lvl : Nat) : List (List Char) → Nat → Nat
  | [], i => i
  | l :: rest, i =>
    match headerLevelL l with
    | some k => if k ≤ lvl then i else sectionEndAux lvl rest (i + 1)
    | none => sectionEndAux lvl rest (i + 1)

/-- Section end boundary starting the search at `start + 1`. -/
def sectionEnd (lines : List (List Char)) (start lvl : Nat) : Nat :=
  sectionEndAux lvl (lines.drop (start + 1)) (start + 1)

/-- Regex metacharacters escaped by the conventional `escapeRegExp`. -/
def isRegexMeta (c : Char) : Bool :=
  c = '.' || c = '*' || c = '+' || c = '?' || c = '^' || c = '$' || c = '{' ||
  c = '}' || c = '(' || c = ')' || c = '|' || c = '[' || c = ']' || c = '\\'

/-- Modelled from the spec: `escapeRegExp` is imported from the repository's
`commonUtils` module, which is not in the sources.  The spec's "literal
(non-regex) matching" for `SearchReplace` together with the
`new RegExp(safeSearchString, 'g')` use requires the conventional
implementation, which backslash-escapes every regex metacharacter. -/
def escapeRegExp (s : String) : String :=
  ⟨s.data.foldr (fun c acc => if isRegexMeta c then '\\' :: c :: acc else c :: acc) []⟩

/-- A directive as the engine receives it: a JS object dispatched on its
`action` string (unknown tags fall through the `switch`).  Fields not used
by an action are ignored, as in JS. -/
structure RawAction where
  action : String
  content : String
  header : String
  find : String
  replacement : String
  all : Bool

/-- A `replace_all` directive. -/
def mkReplaceAll (content : String) : RawAction := ⟨"replace_all", content, "", "", "", false⟩

/-- An `append` directive. -/
def mkAppend (content : String) : RawAction := ⟨"append", content, "", "", "", false⟩

/-- A `prepend` directive. -/
def mkPrepend (content : String) : RawAction := ⟨"prepend", content, "", "", "", false⟩

/-- A `replace_section` directive. -/
def mkReplaceSection (header content : String) : RawAction :=
  ⟨"replace_section", content, header, "", "", false⟩

/-- An `append_to_section` directive. -/
def mkAppendToSection (header content : String) : RawAction :=
  ⟨"append_to_section", content, header, "", "", false⟩

/-- A `search_and_replace` directive (`all` is `false` when absent). -/
def mkSearchReplace (find replacement : String) (all : Bool) : RawAction :=
  ⟨"search_and_replace", "", "", find, replacement, all⟩

/-- Result record `{ newContent, errors }` of the patch engine. -/
structure NotepadResult where
  newContent : String
  errors : List String
deriving DecidableEq

/-- One iteration of the engine's `forEach` (`actionNum` is the 1-based
index used in error messages).  Translated case by case from the `switch`:
unknown actions fall through and change nothing. -/
def applyOne (newContent : String) (actionNum : Nat) (mod : RawAction) : String × List String :=
  let lines := splitLines newContent.data
  if mod.action = "replace_all" then (mod.content, [])
  else if mod.action = "append" then
    (⟨newContent.data ++ (if newContent.data.getLast? = some '\n' then [] else ['\n']) ++
        mod.content.data⟩, [])
  else if mod.action = "prepend" then
    (⟨mod.content.data ++ (if mod.content.data.getLast? = some '\n' then [] else ['\n']) ++
        newContent.data⟩, [])
  else if mod.action = "replace_section" then
    let r := findHeaderLineIndex lines mod.header.data
    if r.1 = -1 then
      let h := mod.header
      (newContent, [s!"操作 {actionNum} (\"replace_section\") 失败: 未找到标题 \"{h}\"。"])
    else
      let startLineIndex := r.1.toNat
      let headerLevel := r.2
      let endLineIndex := sectionEnd lines startLineIndex headerLevel
      let before := lines.take (startLineIndex + 1)
      let after := lines.drop endLineIndex
      let contentToInsert :=
        if mod.content.data.head? = some '\n' then mod.content.data
        else '\n' :: mod.content.data
      (⟨collapse (joinLines (before ++ [contentToInsert] ++ after))⟩, [])
  else if mod.action = "append_to_section" then
    let r := findHeaderLineIndex lines mod.header.data
    if r.1 = -1 then
      let h := mod.header
      (newContent, [s!"操作 {actionNum} (\"append_to_section\") 失败: 未找到标题 \"{h}\"。"])
    else
      let startLineIndex := r.1.toNat
      let headerLevel := r.2
      let insertionLineIndex := sectionEnd lines startLineIndex headerLevel
      let before := lines.take insertionLineIndex
      let after := lines.drop insertionLineIndex
      let contentToInsert :=
        match before.getLast? with
        | some lastLine =>
          if !lastLine.isEmpty && !(trimBoth lastLine).isEmpty then '\n' :: mod.content.data
          else mod.content.data
        | none => mod.content.data
      (⟨collapse (joinLines (before ++ [contentToInsert] ++ after))⟩, [])
  else if mod.action = "search_and_replace" then
    let warn : List String :=
      if !occursIn newContent.data mod.find.data && !mod.all then
        let f20 : String := ⟨mod.find.data.take 20⟩
        [s!"操作 {actionNum} (\"search_and_replace\") 警告: 未找到文本 \"{f20}...\""]
      else []
    if mod.all then
      (⟨replaceAllLiteral newContent.data mod.find.data mod.replacement.data⟩, warn)
    else
      (⟨replaceFirstLiteral newContent.data (escapeRegExp mod.find).data
          mod.replacement.data⟩, warn)
  else (newContent, [])

/-- The engine's fold over the directive list, threading the document and
accumulating errors. -/
def applyGo (content : String) (errs : List String) (idx : Nat) : List RawAction → NotepadResult
  | [] => ⟨content, errs⟩
  | m :: rest =>
    let r := applyOne content (idx + 1) m
    applyGo r.1 (errs ++ r.2) (idx + 1) rest

/-- `applyNotepadModifications`: apply the directives strictly in order over
the evolving document; failing directives record errors and never roll back
earlier ones. -/
def applyNotepadModifications (currentContent : String) (modifications : List RawAction) :
    NotepadResult :=
  applyGo currentContent [] 0 modifications


/-! ### The step executor `executeStep`

The executor is asynchronous UI code; it is embedded as a deterministic
function of the per-attempt environment: what the shared cancellation flag
reads at each cooperative checkpoint and what the transport call does.
Message-store writes (`addMessage` / `updateMessage`) are recorded as an
ordered event list with the store's fresh-id counter threaded through;
per-delta streaming updates mutate only the current placeholder and are not
recorded.  The retry delay `RETRY_DELAY_BASE_MS * (autoRetryCount + 1)` is
recorded by its multiplier. -/

/-- Modelled from the spec: the `constants` module is absent from the
sources; §8 fixes the retry budget at 2 additional attempts. -/
def MAX_AUTO_RETRIES : Nat := 2

/-- Modelled from the spec: the `constants` module is absent; the spec's
"model supports leveled reasoning" is exactly `apiName` being this id (the
literal value is immaterial to every claim). -/
def GEMINI_3_PRO_MODEL_ID : String := "gemini-3-pro"

/-- `ThinkingLevel` union. -/
inductive ThinkingLevel where
  | minimal | low | medium | high
deriving DecidableEq

/-- `AiModel` (absent optional booleans are `false`, as in JS truthiness). -/
structure AiModel where
  id : String
  name : String
  apiName : String
  supportsThinkingConfig : Bool
  supportsSystemInstruction : Bool

/-- The reasoning parameter `{ thinkingBudget?, thinkingLevel? }`. -/
structure ThinkingConfig where
  thinkingBudget : Option Int
  thinkingLevel : Option ThinkingLevel
deriving DecidableEq

/-- `getThinkingConfigForGeminiModel`: reasoning-budget derivation
(`undefined` is `none`). -/
def getThinkingConfigForGeminiModel (useOpenAiApiConfig : Bool) (modelDetails : AiModel)
    (budget : Int) (level : ThinkingLevel) : Option ThinkingConfig :=
  if !useOpenAiApiConfig && modelDetails.supportsThinkingConfig then
    if budget = 0 then none
    else if budget = -1 then
      if modelDetails.apiName = GEMINI_3_PRO_MODEL_ID then some ⟨none, some level⟩
      else some ⟨some 1024, none⟩
    else some ⟨some budget, none⟩
  else none

/-- What one transport call does: return normally (`ok` — possibly with an
`error` tag in the payload, `err`), or throw (`exn name msg`).  Both
provider services catch their own exceptions, turn an abort into the
payload tag `AbortError`, and stream partial text before returning; the
streamed deltas only feed the placeholder accumulator. -/
inductive TransportOutcome where
  | ok (text : String)
  | err (tag : String) (text : String)
  | exn (name : String) (msg : String)

/-- One attempt's environment: the shared cancellation flag as read at the
loop-top checkpoint (`cancelBefore`) and in the window after the transport
call returns or throws (`cancelAfter` — the flag is read there up to twice;
a single value models the set-once flag), plus the transport behavior. -/
structure AttemptEnv where
  cancelBefore : Bool
  transport : TransportOutcome
  cancelAfter : Bool

/-- How `executeStep` ends: returning a parsed response, the canonical
cancellation error `用户取消操作`, or a terminal failure after exhausting
retries. -/
inductive StepOutcome where
  | success (parsed : ParsedAIResponse)
  | cancelled
  | terminalFailure (msg : String)

/-- Observable message-store / timing events of one `executeStep` run. -/
inductive Ev where
  | placeholder (id : Nat)
  | retryNotice (id : Nat) (msg : String)
  | delayMul (n : Nat)
  | failNotice (id : Nat) (msg : String)
  | apiOk
  | finalUpdate (id : Nat) (text : String)
deriving DecidableEq

/-- The Failure Snapshot fields relevant to the claims (the remaining
replay-context fields are copied verbatim from the request likewise). -/
structure Snapshot where
  stepIdentifier : String
  prompt : String
  originalSystemErrorMsgId : Nat
deriving DecidableEq

/-- Result of a run: outcome, ordered events, recorded snapshot. -/
structure StepRes where
  outcome : StepOutcome
  events : List Ev
  snapshot : Option Snapshot

/-- The `while (autoRetryCount <= MAX_AUTO_RETRIES && !stepSuccess)` loop,
one call per attempt.  The fuel starts at `MAX_AUTO_RETRIES + 1` and the
zero case is unreachable.  Per attempt: cancel check at loop top (throws
the canonical cancel), fresh placeholder, transport call; a set cancel flag
after the call always funnels into the canonical cancel rethrow of the
`catch`; a returned `AbortError` tag with the flag clear throws an `Error`
whose *name* is `Error`, so the catch treats it as a normal failure and
retries; exceptions named `AbortError` are rethrown as the canonical
cancel.  Normal failures retry with a notice and a linear delay while
attempts remain, else record the failure notice and snapshot and throw. -/
def runFrom (envs : Nat → AttemptEnv) (sid pr : String) : Nat → Nat → Nat → StepRes
  | 0, _, _ => ⟨.terminalFailure "", [], none⟩
  | f + 1, attempt, nextId =>
    let env := envs attempt
    if env.cancelBefore then ⟨.cancelled, [], none⟩
    else
      let msgId := nextId
      match env.transport with
      | .ok text =>
        if env.cancelAfter then ⟨.cancelled, [.placeholder msgId], none⟩
        else
          let parsed := parseAIResponse text
          ⟨.success parsed, [.placeholder msgId, .apiOk, .finalUpdate msgId parsed.spokenText],
            none⟩
      | .err tag text =>
        if env.cancelAfter then ⟨.cancelled, [.placeholder msgId], none⟩
        else
          let m := if tag = "AbortError" then "用户取消操作"
                   else if text.isEmpty then "AI 响应错误" else text
          if attempt < MAX_AUTO_RETRIES then
            let r := runFrom envs sid pr f (attempt + 1) (msgId + 2)
            ⟨r.outcome,
              .placeholder msgId :: .retryNotice (msgId + 1) ("[重试] " ++ m) ::
                .delayMul (attempt + 1) :: r.events,
              r.snapshot⟩
          else
            ⟨.terminalFailure m,
              [.placeholder msgId, .failNotice (msgId + 1) ("失败: " ++ m)],
              some ⟨sid, pr, msgId + 1⟩⟩
      | .exn name msg =>
        if env.cancelAfter || name = "AbortError" then ⟨.cancelled, [.placeholder msgId], none⟩
        else
          if attempt < MAX_AUTO_RETRIES then
            let r := runFrom envs sid pr f (attempt + 1) (msgId + 2)
            ⟨r.outcome,
              .placeholder msgId :: .retryNotice (msgId + 1) ("[重试] " ++ msg) ::
                .delayMul (attempt + 1) :: r.events,
              r.snapshot⟩
          else
            ⟨.terminalFailure msg,
              [.placeholder msgId, .failNotice (msgId + 1) ("失败: " ++ msg)],
              some ⟨sid, pr, msgId + 1⟩⟩

/-- `executeStep` for a given per-attempt environment. -/
def executeStep (envs : Nat → AttemptEnv) (sid pr : String) : StepRes :=
  runFrom envs sid pr (MAX_AUTO_RETRIES + 1) 0 0

/-- Number of placeholder messages created (= attempts started). -/
def countPlaceholders (evs : List Ev) : Nat :=
  (evs.filter fun e => match e with | .placeholder _ => true | _ => false).length

/-- Number of transient-failure (retry) notices emitted. -/
def countRetryNotices (evs : List Ev) : Nat :=
  (evs.filter fun e => match e with | .retryNotice _ _ => true | _ => false).length

/-- The placeholder ids in creation order. -/
def placeholderIds (evs : List Ev) : List Nat :=
  evs.filterMap fun e => match e with | .placeholder i => some i | _ => none

/-- An attempt that neither observes the cancellation flag nor succeeds:
the transport returns an error payload (any tag — a returned `AbortError`
tag with the flag clear retries, see `runFrom`) or throws a non-abort
exception.  Such an attempt falls into the retry/terminal branch. -/
def normalContinue (env : AttemptEnv) : Prop :=
  env.cancelBefore = false ∧ env.cancelAfter = false ∧
    match env.transport with
    | .ok _ => False
    | .err _ _ => True
    | .exn name _ => name ≠ "AbortError"

/-- The failure message the catch block sees for an attempt that neither
succeeds nor is treated as cancelled. -/
def transportFailMsg : TransportOutcome → Option String
  | .ok _ => none
  | .err tag text =>
      some (if tag = "AbortError" then "用户取消操作"
            else if text.isEmpty then "AI 响应错误" else text)
  | .exn name msg => if name = "AbortError" then none else some msg


/-! ### Properties of the blank-line collapse and of line splitting -/


theorem hTN_cons_mono (c : Char) (l : List Char) (h : hasTripleNL l = true) :
    hasTripleNL (c :: l) = true := by
  match l with
  | [] => simp [hasTripleNL] at h
  | [a] => simp [hasTripleNL] at h
  | [a, b] => simp [hasTripleNL] at h
  | a :: b :: d :: r =>
    have e : hasTripleNL (c :: a :: b :: d :: r) =
        ((c = '\n' && a = '\n' && b = '\n') || hasTripleNL (a :: b :: d :: r)) := rfl
    rw [e, h, Bool.or_true]

theorem hTN_tail (c : Char) (l : List Char) (h : hasTripleNL (c :: l) = false) :
    hasTripleNL l = false := by
  cases hl : hasTripleNL l with
  | false => rfl
  | true => rw [hTN_cons_mono c l hl] at h; simp at h

theorem collapse_head_ne (b : Char) (cs : List Char) (hb : b ≠ '\n') :
    ∃ Z, collapse (b :: cs) = b :: Z := by
  match cs with
  | [] => exact ⟨[], rfl⟩
  | [y] => exact ⟨[y], rfl⟩
  | y :: z :: r =>
    refine ⟨collapse (y :: z :: r), ?_⟩
    simp only [collapse]
    rw [if_neg (by simp [hb])]

theorem hTN_cons_of_safe (a : Char) (X : List Char) (hX : hasTripleNL X = false)
    (hsafe : ¬(a = '\n' ∧ X.take 2 = ['\n', '\n'])) : hasTripleNL (a :: X) = false := by
  match X with
  | [] => rfl
  | [x] => rfl
  | x :: y :: r =>
    have e : hasTripleNL (a :: x :: y :: r) =
        ((a = '\n' && x = '\n' && y = '\n') || hasTripleNL (x :: y :: r)) := rfl
    rw [e, hX, Bool.or_false]
    by_cases hax : a = '\n'
    · by_cases hx : x = '\n'
      · by_cases hy : y = '\n'
        · exact absurd ⟨hax, by simp [hx, hy]⟩ hsafe
        · simp [hy]
      · simp [hx]
    · simp [hax]

theorem collapse_take2_safe (b c : Char) (r : List Char) (hnot : ¬(b = '\n' ∧ c = '\n')) :
    (collapse (b :: c :: r)).take 2 ≠ ['\n', '\n'] := by
  by_cases hb : b = '\n'
  · have hc : c ≠ '\n' := fun hc => hnot ⟨hb, hc⟩
    match r with
    | [] =>
      intro h
      simp only [collapse, List.take] at h
      exact hc (by simpa using congrArg (fun l => l.getD 1 'x') h)
    | r0 :: r' =>
      have e : collapse (b :: c :: r0 :: r') = b :: collapse (c :: r0 :: r') := by
        simp only [collapse]
        rw [if_neg (by simp [hc])]
      rcases collapse_head_ne c (r0 :: r') hc with ⟨Z, hz⟩
      rw [e, hz]
      intro h
      exact hc (by simpa using congrArg (fun l => l.getD 1 'x') h)
  · rcases collapse_head_ne b (c :: r) hb with ⟨Z, hz⟩
    rw [hz]
    intro h
    exact hb (by simpa using congrArg (fun l => l.getD 0 'x') h)

theorem collapse_hasTripleNL (l : List Char) : hasTripleNL (collapse l) = false := by
  induction l with
  | nil => rfl
  | cons a t ih =>
    match t with
    | [] => rfl
    | [b] => rfl
    | b :: c :: r =>
      by_cases h3 : (decide (a = '\n') && decide (b = '\n') && decide (c = '\n')) = true
      · have e : collapse (a :: b :: c :: r) = collapse (b :: c :: r) := by
          simp only [collapse]; rw [if_pos h3]
        rw [e]; exact ih
      · have e : collapse (a :: b :: c :: r) = a :: collapse (b :: c :: r) := by
          simp only [collapse]; rw [if_neg h3]
        rw [e]
        apply hTN_cons_of_safe _ _ ih
        rintro ⟨ha, htake⟩
        have hnot : ¬(b = '\n' ∧ c = '\n') := by
          rintro ⟨hb, hc⟩
          exact h3 (by simp [ha, hb, hc])
        exact collapse_take2_safe b c r hnot htake

theorem collapse_of_no_triple (l : List Char) (h : hasTripleNL l = false) :
    collapse l = l := by
  induction l with
  | nil => rfl
  | cons a t ih =>
    match t with
    | [] => rfl
    | [b] => rfl
    | b :: c :: r =>
      have h3 : ¬(decide (a = '\n') && decide (b = '\n') && decide (c = '\n')) = true := by
        intro hx
        have e : hasTripleNL (a :: b :: c :: r) =
            ((a = '\n' && b = '\n' && c = '\n') || hasTripleNL (b :: c :: r)) := rfl
        rw [e, hx, Bool.true_or] at h
        simp at h
      have e : collapse (a :: b :: c :: r) = a :: collapse (b :: c :: r) := by
        simp only [collapse]; rw [if_neg h3]
      rw [e, ih (hTN_tail _ _ h)]

theorem collapse_append (xs ys : List Char) (hy : ys.head? ≠ some '\n')
    (hys : hasTripleNL ys = false) : collapse (xs ++ ys) = collapse xs ++ ys := by
  induction xs with
  | nil => simpa using collapse_of_no_triple ys hys
  | cons a xs' ih =>
    match xs' with
    | [] =>
      match ys, hy, hys with
      | [], _, _ => rfl
      | [y0], hy, hys =>
        simp only [List.singleton_append, List.cons_append, List.nil_append]
        rfl
      | y0 :: y1 :: yr, hy, hys =>
        have hy0 : y0 ≠ '\n' := by
          intro h; exact hy (by simp [h])
        have h3 : ¬(decide (a = '\n') && decide (y0 = '\n') && decide (y1 = '\n')) = true := by
          simp [hy0]
        simp only [List.singleton_append, List.cons_append, List.nil_append]
        have e : collapse (a :: y0 :: y1 :: yr) = a :: collapse (y0 :: y1 :: yr) := by
          simp only [collapse]; rw [if_neg h3]
        rw [e, collapse_of_no_triple _ hys]
        rfl
    | [b] =>
      match ys, hy, hys with
      | [], _, _ => rfl
      | y0 :: ys', hy, hys =>
        have hy0 : y0 ≠ '\n' := by
          intro h; exact hy (by simp [h])
        have h3 : ¬(decide (a = '\n') && decide (b = '\n') && decide (y0 = '\n')) = true := by
          simp [hy0]
        simp only [List.cons_append, List.nil_append]
        have e : collapse (a :: b :: y0 :: ys') = a :: collapse (b :: y0 :: ys') := by
          simp only [collapse]; rw [if_neg h3]
        rw [e]
        match ys', hys with
        | [], _ => rfl
        | y1 :: yr, hys =>
          have h3' : ¬(decide (b = '\n') && decide (y0 = '\n') && decide (y1 = '\n')) = true := by
            simp [hy0]
          have e' : collapse (b :: y0 :: y1 :: yr) = b :: collapse (y0 :: y1 :: yr) := by
            simp only [collapse]; rw [if_neg h3']
          rw [e', collapse_of_no_triple _ hys]
          rfl
    | b :: c :: xs'' =>
      simp only [List.cons_append] at ih ⊢
      by_cases h3 : (decide (a = '\n') && decide (b = '\n') && decide (c = '\n')) = true
      · have e1 : collapse (a :: b :: c :: (xs'' ++ ys)) = collapse (b :: c :: (xs'' ++ ys)) := by
          simp only [collapse]; rw [if_pos h3]
        have e2 : collapse (a :: b :: c :: xs'') = collapse (b :: c :: xs'') := by
          simp only [collapse]; rw [if_pos h3]
        rw [e1, e2]
        exact ih
      · have e1 : collapse (a :: b :: c :: (xs'' ++ ys)) = a :: collapse (b :: c :: (xs'' ++ ys)) := by
          simp only [collapse]; rw [if_neg h3]
        have e2 : collapse (a :: b :: c :: xs'') = a :: collapse (b :: c :: xs'') := by
          simp only [collapse]; rw [if_neg h3]
        rw [e1, e2, ih]
        rfl

theorem collapse_trailing_newline (u : List Char) :
    ∃ w, collapse (u ++ ['\n']) = w ++ ['\n'] := by
  induction u with
  | nil => exact ⟨[], rfl⟩
  | cons a u' ih =>
    match u' with
    | [] => exact ⟨[a], rfl⟩
    | b :: u'' =>
      rcases ih with ⟨w, hw⟩
      simp only [List.cons_append] at hw ⊢
      rcases hu : u'' ++ ['\n'] with _ | ⟨x, rest⟩
      · exact absurd hu (by simp)
      · rw [hu] at hw
        by_cases h3 : (decide (a = '\n') && decide (b = '\n') && decide (x = '\n')) = true
        · refine ⟨w, ?_⟩
          have e : collapse (a :: b :: x :: rest) = collapse (b :: x :: rest) := by
            simp only [collapse]; rw [if_pos h3]
          rw [e, hw]
        · refine ⟨a :: w, ?_⟩
          have e : collapse (a :: b :: x :: rest) = a :: collapse (b :: x :: rest) := by
            simp only [collapse]; rw [if_neg h3]
          rw [e, hw]
          rfl



theorem splitLines_ne_nil (cs : List Char) : splitLines cs ≠ [] := by
  induction cs with
  | nil => simp [splitLines]
  | cons c rest ih =>
    simp only [splitLines]
    split
    · simp
    · rcases h : splitLines rest with _ | ⟨l, ls⟩
      · simp
      · simp

theorem splitLines_append (x y : List Char) :
    splitLines (x ++ '\n' :: y) = splitLines x ++ splitLines y := by
  induction x with
  | nil =>
    simp only [List.nil_append]
    have e1 : splitLines ('\n' :: y) = [] :: splitLines y := by simp [splitLines]
    rw [e1]
    rfl
  | cons c x' ih =>
    by_cases hc : c = '\n'
    · subst hc
      rw [List.cons_append]
      have e1 : splitLines ('\n' :: (x' ++ '\n' :: y)) = [] :: splitLines (x' ++ '\n' :: y) := by
        simp [splitLines]
      have e2 : splitLines ('\n' :: x') = [] :: splitLines x' := by simp [splitLines]
      rw [e1, ih, e2, List.cons_append]
    · rcases h : splitLines x' with _ | ⟨l, ls⟩
      · exact absurd h (splitLines_ne_nil x')
      · rw [List.cons_append]
        have hmid : splitLines (x' ++ '\n' :: y) = l :: (ls ++ splitLines y) := by
          rw [ih, h]; rfl
        have e1 : splitLines (c :: (x' ++ '\n' :: y)) = (c :: l) :: (ls ++ splitLines y) := by
          simp [splitLines, hc, hmid]
        have e2 : splitLines (c :: x') = (c :: l) :: ls := by
          simp [splitLines, hc, h]
        rw [e1, e2]
        rfl

theorem splitLines_no_nl (l : List Char) (h : '\n' ∉ l) : splitLines l = [l] := by
  induction l with
  | nil => rfl
  | cons c rest ih =>
    have hc : c ≠ '\n' := fun hx => h (hx ▸ List.mem_cons_self c rest)
    have hrest : '\n' ∉ rest := fun hx => h (List.mem_cons_of_mem c hx)
    simp only [splitLines, if_neg hc, ih hrest]

theorem mem_splitLines_no_nl (cs : List Char) : ∀ l ∈ splitLines cs, '\n' ∉ l := by
  induction cs with
  | nil =>
    intro l h
    simp only [splitLines, List.mem_singleton] at h
    subst h; simp
  | cons c rest ih =>
    intro l h
    simp only [splitLines] at h
    by_cases hc : c = '\n'
    · rw [if_pos hc] at h
      rcases List.mem_cons.mp h with h1 | h1
      · subst h1; simp
      · exact ih l h1
    · rw [if_neg hc] at h
      rcases hsp : splitLines rest with _ | ⟨l0, ls⟩
      · exact absurd hsp (splitLines_ne_nil rest)
      · rw [hsp] at h
        rcases List.mem_cons.mp h with h1 | h1
        · subst h1
          intro hmem
          rcases List.mem_cons.mp hmem with h1 | h1
          · exact hc h1.symm
          · exact ih l0 (hsp ▸ List.mem_cons_self l0 ls) h1
        · exact ih l (hsp ▸ List.mem_cons_of_mem l0 h1)

theorem joinLines_append (u v : List (List Char)) (hu : u ≠ []) (hv : v ≠ []) :
    joinLines (u ++ v) = joinLines u ++ '\n' :: joinLines v := by
  induction u with
  | nil => exact absurd rfl hu
  | cons l u' ih =>
    match u' with
    | [] =>
      match v, hv with
      | v0 :: vr, _ =>
        simp only [List.singleton_append, List.cons_append, List.nil_append]
        rfl
    | l2 :: ur =>
      have e : joinLines ((l :: l2 :: ur) ++ v) = l ++ '\n' :: joinLines ((l2 :: ur) ++ v) := rfl
      have e2 : joinLines (l :: l2 :: ur) = l ++ '\n' :: joinLines (l2 :: ur) := rfl
      rw [e, ih (by simp), e2]
      simp

theorem splitLines_joinLines (D : List (List Char)) (hD : D ≠ [])
    (hnl : ∀ l ∈ D, '\n' ∉ l) : splitLines (joinLines D) = D := by
  induction D with
  | nil => exact absurd rfl hD
  | cons l D' ih =>
    match D' with
    | [] => exact splitLines_no_nl l (hnl l (by simp))
    | d :: Dr =>
      have e : joinLines (l :: d :: Dr) = l ++ '\n' :: joinLines (d :: Dr) := rfl
      rw [e, splitLines_append, splitLines_no_nl l (hnl l (by simp))]
      rw [ih (by simp) (fun x hx => hnl x (List.mem_cons_of_mem l hx))]
      rfl

theorem cTB_cons_mono (x : List Char) (L : List (List Char))
    (h : containsTripleBlank L = true) : containsTripleBlank (x :: L) = true := by
  match L with
  | [] => simp [containsTripleBlank] at h
  | [a] => simp [containsTripleBlank] at h
  | [a, b] => simp [containsTripleBlank] at h
  | a :: b :: d :: r =>
    have e : containsTripleBlank (x :: a :: b :: d :: r) =
        ((x.isEmpty && a.isEmpty && b.isEmpty) || containsTripleBlank (a :: b :: d :: r)) := rfl
    rw [e, h, Bool.or_true]

theorem splitLines_nil_cons (r : List Char) (rest : List (List Char))
    (h : splitLines r = [] :: rest) :
    (r = [] ∧ rest = []) ∨ (∃ r', r = '\n' :: r' ∧ splitLines r' = rest) := by
  match r with
  | [] =>
    left
    simp only [splitLines] at h
    exact ⟨rfl, (List.cons.injEq _ _ _ _ ▸ h).2.symm⟩
  | c :: r' =>
    by_cases hc : c = '\n'
    · subst hc
      right
      refine ⟨r', rfl, ?_⟩
      simp only [splitLines, if_pos rfl] at h
      exact (List.cons.injEq _ _ _ _ ▸ h).2
    · exfalso
      simp only [splitLines, if_neg hc] at h
      rcases hsp : splitLines r' with _ | ⟨l0, ls⟩
      · exact absurd hsp (splitLines_ne_nil r')
      · rw [hsp] at h
        have := (List.cons.injEq _ _ _ _ ▸ h).1
        simp at this

theorem cTB_of_splitLines (cs : List Char)
    (h : containsTripleBlank (splitLines cs) = true) :
    hasTripleNL cs = true ∨ cs = ['\n', '\n'] := by
  induction cs with
  | nil => simp [splitLines, containsTripleBlank] at h
  | cons c r ih =>
    by_cases hc : c = '\n'
    · subst hc
      have hspc : splitLines ('\n' :: r) = [] :: splitLines r := by simp [splitLines]
      rw [hspc] at h
      rcases hsp : splitLines r with _ | ⟨h0, t⟩
      · exact absurd hsp (splitLines_ne_nil r)
      · rw [hsp] at h
        match t, h with
        | [], h => simp [containsTripleBlank] at h
        | t0 :: tr, h =>
          replace h : (h0.isEmpty && t0.isEmpty || containsTripleBlank (h0 :: t0 :: tr)) = true := by
            have e : containsTripleBlank ([] :: h0 :: t0 :: tr) =
                ((List.isEmpty ([] : List Char) && h0.isEmpty && t0.isEmpty) ||
                  containsTripleBlank (h0 :: t0 :: tr)) := rfl
            rw [e] at h
            simpa using h
          rcases (Bool.or_eq_true _ _).mp h with hfront | hrec
          · have hh0 : h0 = [] :=
              List.isEmpty_iff.mp ((Bool.and_eq_true _ _).mp hfront).1
            have ht0 : t0 = [] :=
              List.isEmpty_iff.mp ((Bool.and_eq_true _ _).mp hfront).2
            subst hh0; subst ht0
            rcases splitLines_nil_cons r ([] :: tr) hsp with ⟨hr, hrest⟩ | ⟨r', hr, hsp'⟩
            · simp at hrest
            · rcases splitLines_nil_cons r' tr hsp' with ⟨hr', htr⟩ | ⟨r'', hr'', hsp''⟩
              · subst hr'; right; rw [hr]
              · left
                rw [hr, hr'']
                rfl
          · have hmem : containsTripleBlank (splitLines r) = true := by
              rw [hsp]; exact hrec
            rcases ih hmem with hTN | heq
            · exact Or.inl (hTN_cons_mono _ _ hTN)
            · left
              rw [heq]
              rfl
    · rcases hsp : splitLines r with _ | ⟨h0, t⟩
      · exact absurd hsp (splitLines_ne_nil r)
      · have hspc : splitLines (c :: r) = (c :: h0) :: t := by
          simp [splitLines, hc, hsp]
        rw [hspc] at h
        match t, h with
        | [], h => simp [containsTripleBlank] at h
        | [t0], h => simp [containsTripleBlank] at h
        | t0 :: t1 :: tr, h =>
          replace h : (((c :: h0).isEmpty && t0.isEmpty && t1.isEmpty) ||
              containsTripleBlank (t0 :: t1 :: tr)) = true := h
          have hrec : containsTripleBlank (t0 :: t1 :: tr) = true := by
            rcases (Bool.or_eq_true _ _).mp h with hfront | hrec
            · exfalso
              have := ((Bool.and_eq_true _ _).mp ((Bool.and_eq_true _ _).mp hfront).1).1
              simp [List.isEmpty] at this
            · exact hrec
          have hmem : containsTripleBlank (splitLines r) = true := by
            rw [hsp]
            exact cTB_cons_mono h0 _ hrec
          rcases ih hmem with hTN | heq
          · exact Or.inl (hTN_cons_mono _ _ hTN)
          · exfalso
            rw [heq] at hsp
            have e3 : splitLines ['\n', '\n'] = [[], [], []] := rfl
            rw [e3] at hsp
            injection hsp with eh0 hsp1
            injection hsp1 with et0 hsp2
            injection hsp2 with et1 hsp3
            subst et0; subst et1; subst hsp3
            simp [containsTripleBlank] at hrec

theorem noTriple_noThreeBlank (cs : List Char) (h : hasTripleNL cs = false)
    (hne : cs ≠ ['\n', '\n']) : containsTripleBlank (splitLines cs) = false := by
  cases hcb : containsTripleBlank (splitLines cs) with
  | false => rfl
  | true =>
    rcases cTB_of_splitLines cs hcb with h1 | h1
    · rw [h1] at h; simp at h
    · exact absurd h1 hne



theorem parsingErrorOf_parseAIResponse (s : String) :
    parsingErrorOf (parseAIResponse s) = (extractedOf s.data).2.2.1 := by
  unfold parseAIResponse parsingErrorOf
  rcases h : extractedOf s.data with ⟨mods, dse, err, sp⟩
  simp only [h]
  by_cases hc : (decide (mods.length > 0) || err.isSome) = true
  · simp only [hc, if_true]
  · simp only [hc, if_false, Bool.false_eq_true]
    cases err with
    | none => rfl
    | some e => exact absurd (by simp) hc

theorem extractedOf_err (cs : List Char) :
    (extractedOf cs).2.2.1 =
      (match (fenceMatches cs).getLast? with
      | some m =>
          if m.2.isEmpty then none
          else if isObjLike (robustJsonParse ⟨m.2⟩) then none
          else some "Failed to parse AI JSON response."
      | none => none) := by
  unfold extractedOf selectedCandidate
  cases hm : (fenceMatches cs).getLast? with
  | none =>
    have hnil : fenceMatches cs = [] := by
      cases hfm : fenceMatches cs with
      | nil => rfl
      | cons a t =>
        rw [hfm] at hm
        simp [List.getLast?_eq_getLast] at hm
    cases hh : heuristicCandidate cs with
    | none => simp
    | some p =>
      rcases p with ⟨jc, tr⟩
      by_cases hje : jc.isEmpty
      · simp [hje]
      · by_cases hobj : isObjLike (robustJsonParse ⟨jc⟩)
        · simp [hje, hobj, hnil]
        · simp [hje, hobj, hnil]
  | some m =>
    rcases m with ⟨full, cap⟩
    have hpos : 0 < (fenceMatches cs).length := by
      cases hfm : fenceMatches cs with
      | nil => rw [hfm] at hm; simp at hm
      | cons a t => simp
    by_cases hje : cap.isEmpty
    · simp [hje]
    · by_cases hobj : isObjLike (robustJsonParse ⟨cap⟩)
      · simp [hje, hobj]
      · simp [hje, hobj, hpos]


/-- C4 amended.  A parse error is recorded iff a fenced code block was
present AND its selected candidate (the last block's capture) is non-empty
AND `robustJsonParse` does not produce an object or array from it — i.e.
the three escalating repairs fail *or* succeed with a non-object value; an
empty fenced capture is skipped without error.  In particular
heuristic-sourced candidates never produce a reported error, and parsing is
a total function: the spoken text, directives and end-signal are returned
in every case. -/
theorem c4_parse_error_iff_amended (s : String) :
    (parsingErrorOf (parseAIResponse s)).isSome = true ↔
      ∃ m, (fenceMatches s.data).getLast? = some m ∧ m.2 ≠ [] ∧
        isObjLike (robustJsonParse ⟨m.2⟩) = false := by
  rw [parsingErrorOf_parseAIResponse, extractedOf_err]
  cases hm : (fenceMatches s.data).getLast? with
  | none => simp
  | some m =>
    rcases m with ⟨full, cap⟩
    by_cases hje : cap.isEmpty
    · simp [hje, List.isEmpty_iff.mp hje]
    · by_cases hobj : isObjLike (robustJsonParse ⟨cap⟩)
      · simp [hje, hobj]
      · have hne : cap ≠ [] := fun hcap => hje (by simp [hcap])
        simp [hje, hobj, hne]



theorem applyGo_append (c : String) (e : List String) (i : Nat) (ms : List RawAction)
    (m : RawAction) :
    applyGo c e i (ms ++ [m]) =
      ⟨(applyOne (applyGo c e i ms).newContent (i + ms.length + 1) m).1,
       (applyGo c e i ms).errors ++
         (applyOne (applyGo c e i ms).newContent (i + ms.length + 1) m).2⟩ := by
  induction ms generalizing c e i with
  | nil => simp [applyGo]
  | cons m0 ms' ih =>
    simp only [List.cons_append, applyGo, List.append_eq]
    rw [ih]
    have h1 : i + 1 + ms'.length + 1 = i + (m0 :: ms').length + 1 := by
      simp only [List.length_cons]
      omega
    rw [h1]

theorem applyOne_section_collapse (doc : String) (n : Nat) (m : RawAction)
    (hact : m.action = "replace_section" ∨ m.action = "append_to_section")
    (hfound : (findHeaderLineIndex (splitLines doc.data) m.header.data).1 ≠ -1) :
    ∃ X, (applyOne doc n m).1 = ⟨collapse X⟩ := by
  rcases hact with ha | ha
  · refine ⟨?_, ?_⟩
    case refine_2 =>
      unfold applyOne
      rw [if_neg (by rw [ha]; decide), if_neg (by rw [ha]; decide), if_neg (by rw [ha]; decide),
        if_pos (by rw [ha]), if_neg hfound]
      exact rfl
  · refine ⟨?_, ?_⟩
    case refine_2 =>
      unfold applyOne
      rw [if_neg (by rw [ha]; decide), if_neg (by rw [ha]; decide), if_neg (by rw [ha]; decide),
        if_neg (by rw [ha]; decide), if_pos (by rw [ha]), if_neg hfound]
      exact rfl

/-- C3 amended.  The no-3+-consecutive-blank-lines invariant holds not for
every directive list but exactly when the final directive is a
`replace_section` or `append_to_section` whose header resolves: the result
is then a blank-line collapse image, so it contains no run of three
consecutive newline characters, and hence (except for the unreachable
two-newline-only document) no three consecutive blank lines.  Other
directives and the empty list preserve existing blank runs (see the
counterexample). -/
theorem c3_blank_line_collapse_amended (doc : String) (ms : List RawAction) (m : RawAction)
    (hact : m.action = "replace_section" ∨ m.action = "append_to_section")
    (hfound : (findHeaderLineIndex
        (splitLines (applyNotepadModifications doc ms).newContent.data) m.header.data).1 ≠ -1) :
    hasTripleNL (applyNotepadModifications doc (ms ++ [m])).newContent.data = false ∧
    ((applyNotepadModifications doc (ms ++ [m])).newContent.data ≠ ['\n', '\n'] →
      containsTripleBlank
        (splitLines (applyNotepadModifications doc (ms ++ [m])).newContent.data) = false) := by
  have hnc : (applyNotepadModifications doc (ms ++ [m])).newContent =
      (applyOne (applyNotepadModifications doc ms).newContent (0 + ms.length + 1) m).1 := by
    unfold applyNotepadModifications
    rw [applyGo_append]
  obtain ⟨X, hX⟩ :=
    applyOne_section_collapse (applyNotepadModifications doc ms).newContent
      (0 + ms.length + 1) m hact hfound
  rw [hnc, hX]
  exact ⟨collapse_hasTripleNL _,
    fun hne => noTriple_noThreeBlank _ (collapse_hasTripleNL _) hne⟩



theorem headerLevelL_ne_nil (l : List Char) (k : Nat) (h : headerLevelL l = some k) :
    l ≠ [] := by
  intro hl
  subst hl
  simp [headerLevelL, trimBoth, dropTrailWhile] at h

theorem getD_drop (l : List (List Char)) (n m : Nat) :
    (l.drop n).getD m [] = l.getD (n + m) [] := by
  induction l generalizing n with
  | nil => simp
  | cons a t ih =>
    cases n with
    | zero => simp
    | succ n' =>
      simp only [List.drop_succ_cons]
      rw [ih]
      have e : n' + 1 + m = (n' + m) + 1 := by omega
      rw [e, List.getD_cons_succ]

theorem sectionEndAux_le (lvl : Nat) (ls : List (List Char)) (i j : Nat) (hij : i ≤ j)
    (hj : j - i < ls.length) (k : Nat)
    (hq : headerLevelL (ls.getD (j - i) []) = some k) (hkl : k ≤ lvl) :
    sectionEndAux lvl ls i ≤ j := by
  induction ls generalizing i with
  | nil => simp at hj
  | cons l rest ih =>
    by_cases hji : j = i
    · subst hji
      simp only [Nat.sub_self, List.getD_cons_zero] at hq
      simp [sectionEndAux, hq, hkl]
    · have hij' : i + 1 ≤ j := by omega
      have hsub : j - i = (j - (i + 1)) + 1 := by omega
      rw [hsub] at hq
      have hq' : headerLevelL (rest.getD (j - (i + 1)) []) = some k := by
        simpa using hq
      have hj' : j - (i + 1) < rest.length := by
        simp only [List.length_cons] at hj
        omega
      cases hh : headerLevelL l with
      | some k0 =>
        by_cases hk0 : k0 ≤ lvl
        · simp only [sectionEndAux, hh, hk0, if_pos]
          omega
        · simp only [sectionEndAux, hh, if_neg hk0]
          exact ih (i + 1) hij' hj' hq'
      | none =>
        simp only [sectionEndAux, hh]
        exact ih (i + 1) hij' hj' hq'

theorem applyOne_replace_section_eq (doc : String) (n : Nat) (m : RawAction)
    (ha : m.action = "replace_section") (iA lA : Nat)
    (hfind : findHeaderLineIndex (splitLines doc.data) m.header.data = (Int.ofNat iA, lA)) :
    (applyOne doc n m).1 = ⟨collapse (joinLines
      ((splitLines doc.data).take (iA + 1) ++
        [if m.content.data.head? = some '\n' then m.content.data else '\n' :: m.content.data] ++
        (splitLines doc.data).drop (sectionEnd (splitLines doc.data) iA lA)))⟩ := by
  unfold applyOne
  rw [if_neg (by rw [ha]; decide), if_neg (by rw [ha]; decide), if_neg (by rw [ha]; decide),
    if_pos (by rw [ha]), hfind]
  rw [if_neg (show ¬((Int.ofNat iA, lA).1 = (-1 : Int)) by simp)]
  exact rfl

theorem joinLines_head? (d0 : List Char) (rest : List (List Char)) (hd : d0 ≠ []) :
    (joinLines (d0 :: rest)).head? = d0.head? := by
  match rest with
  | [] => rfl
  | r :: rs =>
    have e : joinLines (d0 :: r :: rs) = d0 ++ '\n' :: joinLines (r :: rs) := rfl
    rw [e]
    match d0, hd with
    | c :: d0', _ => rfl

/-- C2 amended.  If the Header Resolver targets section A — returning line
`iA` at level `lA` — and a later line `iB` is a header line of level
`≤ lA` (such as `## B` under a `## A` target), then `replace_section`
leaves every line from line `iB` to the end of the document unchanged,
PROVIDED the text from line `iB` onward contains no run of three or more
newlines; without that proviso the engine's document-wide blank-line
collapse may rewrite the tail (see the counterexample). -/
theorem c2_replaceSection_frame_amended (doc header content : String) (iA lA iB lB : Nat)
    (hfind : findHeaderLineIndex (splitLines doc.data) header.data = (Int.ofNat iA, lA))
    (hAB : iA < iB)
    (hBlen : iB < (splitLines doc.data).length)
    (hB : headerLevelL ((splitLines doc.data).getD iB []) = some lB)
    (hlB : lB ≤ lA)
    (htail : hasTripleNL (joinLines ((splitLines doc.data).drop iB)) = false) :
    ∃ pre, splitLines ((applyNotepadModifications doc
        [mkReplaceSection header content]).newContent.data)
      = pre ++ (splitLines doc.data).drop iB := by
  set lines := splitLines doc.data with hlines
  -- the single-directive engine run is one applyOne call
  have hnc : (applyNotepadModifications doc [mkReplaceSection header content]).newContent =
      (applyOne doc 1 (mkReplaceSection header content)).1 := by
    unfold applyNotepadModifications applyGo
    rfl
  have hone := applyOne_replace_section_eq doc 1 (mkReplaceSection header content) rfl iA lA
    (by exact hfind)
  set endIdx := sectionEnd lines iA lA with hend
  -- the boundary search stops at or before iB
  have hendle : endIdx ≤ iB := by
    rw [hend]
    unfold sectionEnd
    refine sectionEndAux_le lA (lines.drop (iA + 1)) (iA + 1) iB (by omega) ?_ lB ?_ hlB
    · rw [List.length_drop]
      omega
    · rw [getD_drop]
      have : iA + 1 + (iB - (iA + 1)) = iB := by omega
      rw [this]
      exact hB
  -- split the tail of the document at iB
  have hsplit : lines.drop endIdx =
      (lines.drop endIdx).take (iB - endIdx) ++ lines.drop iB := by
    conv_lhs => rw [← List.take_append_drop (iB - endIdx) (lines.drop endIdx)]
    congr 1
    rw [List.drop_drop]
    congr 1
    omega
  set ins : List Char :=
    (if content.data.head? = some '\n' then content.data else '\n' :: content.data) with hins
  have hone' : (applyOne doc 1 (mkReplaceSection header content)).1 =
      ⟨collapse (joinLines (lines.take (iA + 1) ++ [ins] ++ lines.drop endIdx))⟩ := hone
  set D := lines.drop iB with hD
  have hDne : D ≠ [] := by
    rw [hD]
    intro hnil
    rw [List.drop_eq_nil_iff] at hnil
    omega
  -- D's head line is the ## B header: non-empty and newline-free
  have hBline : lines.getD iB [] ≠ [] := headerLevelL_ne_nil _ _ hB
  have hDcons : D = lines.getD iB [] :: lines.drop (iB + 1) := by
    rw [hD, List.drop_eq_getElem_cons hBlen]
    congr 1
    exact (List.getD_eq_getElem lines [] hBlen).symm
  have hnlB : ∀ l ∈ D, '\n' ∉ l := by
    intro l hl
    exact mem_splitLines_no_nl doc.data l (List.mem_of_mem_drop hl)
  have hheadD : (joinLines D).head? ≠ some '\n' := by
    rw [hDcons, joinLines_head? _ _ hBline]
    rcases hx : lines.getD iB [] with _ | ⟨c, cs⟩
    · exact absurd hx hBline
    · have hcn : '\n' ∉ lines.getD iB [] := by
        have hmem : lines.getD iB [] ∈ lines := by
          rw [List.getD_eq_getElem lines [] hBlen]
          exact List.getElem_mem hBlen
        exact mem_splitLines_no_nl doc.data _ hmem
      simp only [List.head?_cons, ne_eq, Option.some.injEq]
      intro hcnl
      subst hcnl
      exact hcn (by rw [hx]; exact List.mem_cons_self _ _)
  -- regroup the engine's line list around the preserved tail
  have hW : lines.take (iA + 1) ++ [ins] ++ lines.drop endIdx =
      (lines.take (iA + 1) ++ [ins] ++ (lines.drop endIdx).take (iB - endIdx)) ++ D := by
    conv_lhs => rw [hsplit]
    simp [List.append_assoc]
  have hWne : lines.take (iA + 1) ++ [ins] ++ (lines.drop endIdx).take (iB - endIdx) ≠ [] := by
    simp
  -- join, split off the tail, collapse
  have hjoin : joinLines (lines.take (iA + 1) ++ [ins] ++ lines.drop endIdx) =
      (joinLines (lines.take (iA + 1) ++ [ins] ++ (lines.drop endIdx).take (iB - endIdx))
        ++ ['\n']) ++ joinLines D := by
    rw [hW, joinLines_append _ _ hWne hDne]
    simp
  have hcol : collapse (joinLines (lines.take (iA + 1) ++ [ins] ++ lines.drop endIdx)) =
      collapse (joinLines (lines.take (iA + 1) ++ [ins] ++
        (lines.drop endIdx).take (iB - endIdx)) ++ ['\n']) ++ joinLines D := by
    rw [hjoin]
    exact collapse_append _ _ hheadD htail
  obtain ⟨w, hw⟩ := collapse_trailing_newline
    (joinLines (lines.take (iA + 1) ++ [ins] ++ (lines.drop endIdx).take (iB - endIdx)))
  refine ⟨splitLines w, ?_⟩
  rw [hnc, hone']
  have hdata : (⟨collapse (joinLines (lines.take (iA + 1) ++ [ins] ++ lines.drop endIdx))⟩ :
      String).data = collapse (joinLines (lines.take (iA + 1) ++ [ins] ++ lines.drop endIdx)) :=
    rfl
  rw [hdata, hcol, hw]
  have hsplit2 : (w ++ ['\n']) ++ joinLines D = w ++ '\n' :: joinLines D := by simp
  rw [hsplit2, splitLines_append, splitLines_joinLines D hDne hnlB]


/-! ### Properties of the step-executor loop -/


theorem countPlaceholders_cons_p (i : Nat) (evs : List Ev) :
    countPlaceholders (.placeholder i :: evs) = countPlaceholders evs + 1 := by
  simp [countPlaceholders, List.filter_cons]

theorem countPlaceholders_cons_r (i : Nat) (m : String) (evs : List Ev) :
    countPlaceholders (.retryNotice i m :: evs) = countPlaceholders evs := by
  simp [countPlaceholders, List.filter_cons]

theorem countPlaceholders_cons_d (d : Nat) (evs : List Ev) :
    countPlaceholders (.delayMul d :: evs) = countPlaceholders evs := by
  simp [countPlaceholders, List.filter_cons]

theorem countRetryNotices_cons_p (i : Nat) (evs : List Ev) :
    countRetryNotices (.placeholder i :: evs) = countRetryNotices evs := by
  simp [countRetryNotices, List.filter_cons]

theorem countRetryNotices_cons_r (i : Nat) (m : String) (evs : List Ev) :
    countRetryNotices (.retryNotice i m :: evs) = countRetryNotices evs + 1 := by
  simp [countRetryNotices, List.filter_cons]

theorem countRetryNotices_cons_d (d : Nat) (evs : List Ev) :
    countRetryNotices (.delayMul d :: evs) = countRetryNotices evs := by
  simp [countRetryNotices, List.filter_cons]

theorem runFrom_sig (envs : Nat → AttemptEnv) (sid pr : String) (f a n : Nat)
    (h : (envs a).cancelBefore = true ∨ (envs a).cancelAfter = true) :
    (runFrom envs sid pr (f + 1) a n).outcome = .cancelled ∧
    (runFrom envs sid pr (f + 1) a n).snapshot = none ∧
    countPlaceholders (runFrom envs sid pr (f + 1) a n).events ≤ 1 ∧
    countRetryNotices (runFrom envs sid pr (f + 1) a n).events = 0 := by
  by_cases hcb : (envs a).cancelBefore = true
  · simp [runFrom, hcb, countPlaceholders, countRetryNotices]
  · have hca : (envs a).cancelAfter = true := by
      rcases h with h | h
      · exact absurd h hcb
      · exact h
    cases htr : (envs a).transport with
    | ok t =>
      simp [runFrom, hcb, hca, htr, countPlaceholders, countRetryNotices, List.filter]
    | err tag text =>
      simp [runFrom, hcb, hca, htr, countPlaceholders, countRetryNotices, List.filter]
    | exn name msg =>
      simp [runFrom, hcb, hca, htr, countPlaceholders, countRetryNotices, List.filter]

theorem runFrom_continue (envs : Nat → AttemptEnv) (sid pr : String) (f a n : Nat)
    (hc : normalContinue (envs a)) (hlt : a < MAX_AUTO_RETRIES) (m : String)
    (hm : transportFailMsg (envs a).transport = some m) :
    runFrom envs sid pr (f + 1) a n =
      ⟨(runFrom envs sid pr f (a + 1) (n + 2)).outcome,
       .placeholder n :: .retryNotice (n + 1) ("[重试] " ++ m) :: .delayMul (a + 1) ::
         (runFrom envs sid pr f (a + 1) (n + 2)).events,
       (runFrom envs sid pr f (a + 1) (n + 2)).snapshot⟩ := by
  obtain ⟨hcb, hca, htr⟩ := hc
  cases htrm : (envs a).transport with
  | ok t => rw [htrm] at htr; exact htr.elim
  | err tag text =>
    rw [htrm] at hm
    simp only [transportFailMsg, Option.some.injEq] at hm
    simp [runFrom, hcb, hca, htrm, hlt, hm]
  | exn name msg =>
    rw [htrm] at htr
    replace htr : name ≠ "AbortError" := htr
    rw [htrm] at hm
    simp only [transportFailMsg, if_neg htr, Option.some.injEq] at hm
    simp [runFrom, hcb, hca, htrm, htr, hlt, hm]


/-! ### Claim theorems -/

/-- C1.  The spec says `SearchReplace` uses literal matching and, with
`all:false`, replaces the first occurrence of `find` — but the code passes
the regex-escaped `escapeRegExp(mod.find)` to the *string* overload of
`String.prototype.replace`, which searches for that escaped text literally.
On the document `"a.b"` with `find = "a.b"`, `replacement = "X"`,
`all = false`: the find text does occur, so no warning is recorded, yet the
document comes back unchanged instead of becoming `"X"` (the escaped needle
`a\.b` occurs nowhere). -/
theorem c1_searchReplace_escaped_find_eval :
    occursIn "a.b".data "a.b".data = true ∧
    escapeRegExp "a.b" = "a\\.b" ∧
    applyNotepadModifications "a.b" [mkSearchReplace "a.b" "X" false] =
      ⟨"a.b", []⟩ := by
  refine ⟨by decide, by decide, by decide⟩

/-- C2 counterexample.  Document `## A / old / ## B / x / (3 blank lines) /
y`: the `replace_section` directive targets section A (the resolver returns
line 0 at level 2, and line 2 is the header `## B`), yet the lines from
`## B` to the end are not preserved — the engine's document-wide blank-line
collapse rewrites the blank run under `## B`. -/
theorem c2_replaceSection_tail_counterexample :
    findHeaderLineIndex (splitLines "## A\nold\n## B\nx\n\n\n\ny".data) "A".data = (0, 2) ∧
    (splitLines "## A\nold\n## B\nx\n\n\n\ny".data).getD 2 [] = "## B".data ∧
    List.isSuffixOf ((splitLines "## A\nold\n## B\nx\n\n\n\ny".data).drop 2)
      (splitLines ((applyNotepadModifications "## A\nold\n## B\nx\n\n\n\ny"
          [mkReplaceSection "A" "new"]).newContent.data)) = false := by
  refine ⟨by decide, by decide, by decide⟩

/-- C3 counterexample.  The engine collapses blank lines only inside
`replace_section` / `append_to_section`; with an empty directive list a
document holding four consecutive blank lines is returned verbatim, so the
returned document can contain 3+ consecutive blank lines. -/
theorem c3_blank_lines_counterexample :
    applyNotepadModifications "a\n\n\n\n\nb" [] = ⟨"a\n\n\n\n\nb", []⟩ ∧
    containsTripleBlank
      (splitLines (applyNotepadModifications "a\n\n\n\n\nb" []).newContent.data) = true := by
  refine ⟨by decide, by decide⟩

/-- C4 counterexample.  For `"Hello\n```json\n42\n```"` the fenced
candidate is `42`, which `robustJsonParse` parses successfully at the first
attempt — yet a parse error *is* recorded, because the code demands a
truthy value of `typeof === 'object'`, not merely parseability.  So "error
iff fenced block present and candidate unparsable after all repairs" fails
in the only-if direction. -/
theorem c4_parse_error_counterexample :
    selectedCandidate "Hello\n```json\n42\n```".data =
      some ("42".data, "```json\n42\n```".data) ∧
    (robustJsonParse "42").isSome = true ∧
    (parsingErrorOf (parseAIResponse "Hello\n```json\n42\n```")).isSome = true := by
  refine ⟨rfl, rfl, rfl⟩

/-- C6.  Parsing `"Hello"`, a newline and a json-tagged fenced block with
one `append` directive and `discussion_complete:true` yields spoken text
`"Hello"`, exactly that one raw Append directive with content `"X"`, and a
set end signal. -/
theorem c6_parse_hello_append_eval :
    parseAIResponse
        "Hello\n```json\n\x7b\"notepad_modifications\":[\x7b\"action\":\"append\",\"content\":\"X\"\x7d],\"discussion_complete\":true\x7d\n```" =
      ⟨"Hello",
       some ⟨some [JsValue.jobj [("action", JsValue.jstr "append"), ("content", JsValue.jstr "X")]], none⟩,
       true⟩ := by
  rfl

/-- C7.  In the document `intro / ## "summary" / body` the Header Resolver
called with target `"Summary:"` returns the `## "summary"` line (index 1)
at its marker-count level 2: normalization lowercases and strips the
trailing colon, and the quoted header matches by the substring rule. -/
theorem c7_header_resolver_summary_eval :
    findHeaderLineIndex (splitLines "intro\n## \"summary\"\nbody".data) "Summary:".data
      = (1, 2) := by
  decide

/-- C9.  Reasoning-budget derivation on the non-OpenAI path for a model
with thinking-config support: budget 0 disables the parameter; the `-1`
"auto" sentinel yields the named level for the leveled-reasoning model and
the fixed minimal budget 1024 otherwise; any other budget passes through
unchanged. -/
theorem c9_thinking_budget_derivation (m : AiModel) (budget : Int) (level : ThinkingLevel)
    (hm : m.supportsThinkingConfig = true) :
    (budget = 0 → getThinkingConfigForGeminiModel false m budget level = none) ∧
    (budget = -1 →
      (m.apiName = GEMINI_3_PRO_MODEL_ID →
        getThinkingConfigForGeminiModel false m budget level = some ⟨none, some level⟩) ∧
      (m.apiName ≠ GEMINI_3_PRO_MODEL_ID →
        getThinkingConfigForGeminiModel false m budget level = some ⟨some 1024, none⟩)) ∧
    (budget ≠ 0 → budget ≠ -1 →
      getThinkingConfigForGeminiModel false m budget level = some ⟨some budget, none⟩) := by
  refine ⟨fun h0 => ?_, fun h1 => ⟨fun hg => ?_, fun hg => ?_⟩, fun h0 h1 => ?_⟩
  · simp [getThinkingConfigForGeminiModel, hm, h0]
  · simp [getThinkingConfigForGeminiModel, hm, h1, hg]
  · simp [getThinkingConfigForGeminiModel, hm, h1, hg]
  · simp [getThinkingConfigForGeminiModel, hm, h0, h1]

/-- Witness for C9 at a concrete model and each budget shape. -/
theorem c9_thinking_budget_derivation_witness :
    getThinkingConfigForGeminiModel false ⟨"m", "m", "api", true, false⟩ 0 ThinkingLevel.low
      = none ∧
    getThinkingConfigForGeminiModel false ⟨"m", "m", "api", true, false⟩ (-1) ThinkingLevel.low
      = some ⟨some 1024, none⟩ ∧
    getThinkingConfigForGeminiModel false ⟨"m", "m", "api", true, false⟩ 77 ThinkingLevel.low
      = some ⟨some 77, none⟩ :=
  ⟨(c9_thinking_budget_derivation ⟨"m", "m", "api", true, false⟩ 0 ThinkingLevel.low rfl).1 rfl,
   ((c9_thinking_budget_derivation ⟨"m", "m", "api", true, false⟩ (-1) ThinkingLevel.low rfl).2.1
      rfl).2 (by decide),
   (c9_thinking_budget_derivation ⟨"m", "m", "api", true, false⟩ 77 ThinkingLevel.low rfl).2.2
      (by decide) (by decide)⟩

/-- C10.  A directive whose action tag is none of the six recognized tags is
silently skipped by the engine — document unchanged, no error appended —
and the parser passes such entries through into the directive list
unvalidated (shown on a fenced block carrying an `explode` action). -/
theorem c10_unknown_action_skipped :
    (∀ (doc : String) (n : Nat) (mod : RawAction),
        mod.action ∉ (["replace_all", "append", "prepend", "replace_section",
            "append_to_section", "search_and_replace"] : List String) →
        applyOne doc n mod = (doc, []) ∧
          applyNotepadModifications doc [mod] = ⟨doc, []⟩) ∧
    (parseAIResponse "x\n```json\n\x7b\"notepad_modifications\":[\x7b\"action\":\"explode\"\x7d]\x7d\n```").notepadUpdate
      = some ⟨some [JsValue.jobj [("action", JsValue.jstr "explode")]], none⟩ := by
  constructor
  · intro doc n mod h
    simp only [List.mem_cons, List.not_mem_nil, or_false, not_or] at h
    obtain ⟨h1, h2, h3, h4, h5, h6⟩ := h
    have happ : ∀ k : Nat, applyOne doc k mod = (doc, []) := fun k => by
      simp [applyOne, h1, h2, h3, h4, h5, h6]
    exact ⟨happ n, by simp [applyNotepadModifications, applyGo, happ 1]⟩
  · rfl

/-- Witness for C10 at a concrete unknown action. -/
theorem c10_unknown_action_skipped_witness :
    applyOne "doc" 1 ⟨"explode", "c", "", "", "", false⟩ = ("doc", []) :=
  (c10_unknown_action_skipped.1 "doc" 1 ⟨"explode", "c", "", "", "", false⟩ (by decide)).1

/-- C5.  If the shared cancellation flag is observed at any checkpoint of
attempt `k` — before the attempt begins (`cancelBefore`) or anywhere in the
window after the transport call returns or throws (`cancelAfter`, which
covers a mid-stream cancellation surfacing when the call completes) — while
every earlier attempt was an ordinary transient failure, then `executeStep`
ends in the single canonical Cancelled outcome (a constructor distinct from
`success` and `terminalFailure`), records no Failure Snapshot, starts no
further attempt (at most `k + 1` placeholders) and emits no further retry
notice. -/
theorem c5_cancellation_canonical (envs : Nat → AttemptEnv) (sid pr : String) (k : Nat)
    (hk : k ≤ MAX_AUTO_RETRIES)
    (hsig : (envs k).cancelBefore = true ∨ (envs k).cancelAfter = true)
    (hprev : ∀ j, j < k → normalContinue (envs j)) :
    (executeStep envs sid pr).outcome = .cancelled ∧
    (executeStep envs sid pr).snapshot = none ∧
    countPlaceholders (executeStep envs sid pr).events ≤ k + 1 ∧
    countRetryNotices (executeStep envs sid pr).events ≤ k := by
  have hmsg : ∀ j, normalContinue (envs j) →
      ∃ m, transportFailMsg (envs j).transport = some m := by
    intro j hj
    obtain ⟨_, _, htr⟩ := hj
    cases htrm : (envs j).transport with
    | ok t => rw [htrm] at htr; exact htr.elim
    | err tag text => exact ⟨_, rfl⟩
    | exn name msg =>
      rw [htrm] at htr
      replace htr : name ≠ "AbortError" := htr
      exact ⟨msg, by simp [transportFailMsg, htr]⟩
  have hMAX : MAX_AUTO_RETRIES = 2 := rfl
  rw [hMAX] at hk
  unfold executeStep
  interval_cases k
  · have h : (runFrom envs sid pr (MAX_AUTO_RETRIES + 1) 0 0).outcome = .cancelled ∧
        (runFrom envs sid pr (MAX_AUTO_RETRIES + 1) 0 0).snapshot = none ∧
        countPlaceholders (runFrom envs sid pr (MAX_AUTO_RETRIES + 1) 0 0).events ≤ 1 ∧
        countRetryNotices (runFrom envs sid pr (MAX_AUTO_RETRIES + 1) 0 0).events = 0 :=
      runFrom_sig envs sid pr 2 0 0 hsig
    exact ⟨h.1, h.2.1, h.2.2.1, le_of_eq h.2.2.2⟩
  · obtain ⟨m0, hm0⟩ := hmsg 0 (hprev 0 (by omega))
    have e0 : runFrom envs sid pr (MAX_AUTO_RETRIES + 1) 0 0 =
        ⟨(runFrom envs sid pr 2 1 2).outcome,
         .placeholder 0 :: .retryNotice 1 ("[重试] " ++ m0) :: .delayMul 1 ::
           (runFrom envs sid pr 2 1 2).events,
         (runFrom envs sid pr 2 1 2).snapshot⟩ :=
      runFrom_continue envs sid pr 2 0 0 (hprev 0 (by omega)) (by decide) m0 hm0
    have h : (runFrom envs sid pr 2 1 2).outcome = .cancelled ∧
        (runFrom envs sid pr 2 1 2).snapshot = none ∧
        countPlaceholders (runFrom envs sid pr 2 1 2).events ≤ 1 ∧
        countRetryNotices (runFrom envs sid pr 2 1 2).events = 0 :=
      runFrom_sig envs sid pr 1 1 2 hsig
    rw [e0]
    refine ⟨h.1, h.2.1, ?_, ?_⟩
    · simp only [countPlaceholders_cons_p, countPlaceholders_cons_r, countPlaceholders_cons_d]
      omega
    · simp only [countRetryNotices_cons_p, countRetryNotices_cons_r, countRetryNotices_cons_d]
      omega
  · obtain ⟨m0, hm0⟩ := hmsg 0 (hprev 0 (by omega))
    obtain ⟨m1, hm1⟩ := hmsg 1 (hprev 1 (by omega))
    have e0 : runFrom envs sid pr (MAX_AUTO_RETRIES + 1) 0 0 =
        ⟨(runFrom envs sid pr 2 1 2).outcome,
         .placeholder 0 :: .retryNotice 1 ("[重试] " ++ m0) :: .delayMul 1 ::
           (runFrom envs sid pr 2 1 2).events,
         (runFrom envs sid pr 2 1 2).snapshot⟩ :=
      runFrom_continue envs sid pr 2 0 0 (hprev 0 (by omega)) (by decide) m0 hm0
    have e1 : runFrom envs sid pr 2 1 2 =
        ⟨(runFrom envs sid pr 1 2 4).outcome,
         .placeholder 2 :: .retryNotice 3 ("[重试] " ++ m1) :: .delayMul 2 ::
           (runFrom envs sid pr 1 2 4).events,
         (runFrom envs sid pr 1 2 4).snapshot⟩ :=
      runFrom_continue envs sid pr 1 1 2 (hprev 1 (by omega)) (by decide) m1 hm1
    have h : (runFrom envs sid pr 1 2 4).outcome = .cancelled ∧
        (runFrom envs sid pr 1 2 4).snapshot = none ∧
        countPlaceholders (runFrom envs sid pr 1 2 4).events ≤ 1 ∧
        countRetryNotices (runFrom envs sid pr 1 2 4).events = 0 :=
      runFrom_sig envs sid pr 0 2 4 hsig
    rw [e0, e1]
    refine ⟨h.1, h.2.1, ?_, ?_⟩
    · simp only [countPlaceholders_cons_p, countPlaceholders_cons_r, countPlaceholders_cons_d]
      omega
    · simp only [countRetryNotices_cons_p, countRetryNotices_cons_r, countRetryNotices_cons_d]
      omega

theorem runFrom_ok (envs : Nat → AttemptEnv) (sid pr : String) (f a n : Nat)
    (hcb : (envs a).cancelBefore = false) (hca : (envs a).cancelAfter = false)
    (t : String) (htr : (envs a).transport = .ok t) :
    runFrom envs sid pr (f + 1) a n =
      ⟨.success (parseAIResponse t),
       [.placeholder n, .apiOk, .finalUpdate n (parseAIResponse t).spokenText], none⟩ := by
  simp [runFrom, hcb, hca, htr]

/-- C8.  With the spec's retry budget of 2 additional attempts, a transport
that fails normally on the first two attempts and succeeds on the third
makes `executeStep` succeed with exactly this event trace: a fresh
placeholder for each of the three attempts (ids 0, 2 and 4 — pairwise
distinct, never reused), exactly 2 transient-failure notices, and delays of
base×1 before the second attempt and base×2 before the third. -/
theorem c8_retry_twice_then_success (envs : Nat → AttemptEnv) (sid pr t m0 m1 : String)
    (h0 : normalContinue (envs 0)) (h0m : transportFailMsg (envs 0).transport = some m0)
    (h1 : normalContinue (envs 1)) (h1m : transportFailMsg (envs 1).transport = some m1)
    (h2b : (envs 2).cancelBefore = false) (h2a : (envs 2).cancelAfter = false)
    (h2t : (envs 2).transport = .ok t) :
    executeStep envs sid pr =
      ⟨.success (parseAIResponse t),
       [.placeholder 0, .retryNotice 1 ("[重试] " ++ m0), .delayMul 1,
        .placeholder 2, .retryNotice 3 ("[重试] " ++ m1), .delayMul 2,
        .placeholder 4, .apiOk, .finalUpdate 4 (parseAIResponse t).spokenText], none⟩ ∧
    placeholderIds (executeStep envs sid pr).events = [0, 2, 4] ∧
    (placeholderIds (executeStep envs sid pr).events).Nodup := by
  have e0 : runFrom envs sid pr (MAX_AUTO_RETRIES + 1) 0 0 =
      ⟨(runFrom envs sid pr 2 1 2).outcome,
       .placeholder 0 :: .retryNotice 1 ("[重试] " ++ m0) :: .delayMul 1 ::
         (runFrom envs sid pr 2 1 2).events,
       (runFrom envs sid pr 2 1 2).snapshot⟩ :=
    runFrom_continue envs sid pr 2 0 0 h0 (by decide) m0 h0m
  have e1 : runFrom envs sid pr 2 1 2 =
      ⟨(runFrom envs sid pr 1 2 4).outcome,
       .placeholder 2 :: .retryNotice 3 ("[重试] " ++ m1) :: .delayMul 2 ::
         (runFrom envs sid pr 1 2 4).events,
       (runFrom envs sid pr 1 2 4).snapshot⟩ :=
    runFrom_continue envs sid pr 1 1 2 h1 (by decide) m1 h1m
  have e2 : runFrom envs sid pr 1 2 4 =
      ⟨.success (parseAIResponse t),
       [.placeholder 4, .apiOk, .finalUpdate 4 (parseAIResponse t).spokenText], none⟩ :=
    runFrom_ok envs sid pr 0 2 4 h2b h2a t h2t
  have main : executeStep envs sid pr =
      ⟨.success (parseAIResponse t),
       [.placeholder 0, .retryNotice 1 ("[重试] " ++ m0), .delayMul 1,
        .placeholder 2, .retryNotice 3 ("[重试] " ++ m1), .delayMul 2,
        .placeholder 4, .apiOk, .finalUpdate 4 (parseAIResponse t).spokenText], none⟩ := by
    unfold executeStep
    rw [e0, e1, e2]
  refine ⟨main, ?_, ?_⟩
  · rw [main]
    rfl
  · rw [main]
    simp [placeholderIds]


/-- Witness for C5: flag set from the start; the very first checkpoint
cancels the step. -/
theorem c5_cancellation_canonical_witness :
    (executeStep (fun _ => ⟨true, .ok "", true⟩) "step" "prompt").outcome = .cancelled ∧
    (executeStep (fun _ => ⟨true, .ok "", true⟩) "step" "prompt").snapshot = none ∧
    countPlaceholders (executeStep (fun _ => ⟨true, .ok "", true⟩) "step" "prompt").events
      ≤ 0 + 1 ∧
    countRetryNotices (executeStep (fun _ => ⟨true, .ok "", true⟩) "step" "prompt").events
      ≤ 0 :=
  c5_cancellation_canonical (fun _ => ⟨true, .ok "", true⟩) "step" "prompt" 0 (by decide)
    (Or.inl rfl) (fun j hj => absurd hj (Nat.not_lt_zero j))

/-- Witness for C8 at two concrete thrown errors and a concrete reply. -/
theorem c8_retry_twice_then_success_witness :
    placeholderIds (executeStep
        (fun j => if j = 0 then ⟨false, .exn "Error" "boom1", false⟩
          else if j = 1 then ⟨false, .exn "Error" "boom2", false⟩
          else ⟨false, .ok "hi", false⟩) "s" "p").events = [0, 2, 4] :=
  (c8_retry_twice_then_success
    (fun j => if j = 0 then ⟨false, .exn "Error" "boom1", false⟩
      else if j = 1 then ⟨false, .exn "Error" "boom2", false⟩
      else ⟨false, .ok "hi", false⟩) "s" "p" "hi" "boom1" "boom2"
    ⟨rfl, rfl, (by decide : ("Error" : String) ≠ "AbortError")⟩ rfl
    ⟨rfl, rfl, (by decide : ("Error" : String) ≠ "AbortError")⟩ rfl rfl rfl rfl).2.1

/-- Witness for C2 on a concrete document whose tail has no blank run. -/
theorem c2_replaceSection_frame_amended_witness :
    ∃ pre, splitLines ((applyNotepadModifications "## A\nold\n## B\nx\ny"
        [mkReplaceSection "A" "new"]).newContent.data)
      = pre ++ (splitLines "## A\nold\n## B\nx\ny".data).drop 2 :=
  c2_replaceSection_frame_amended "## A\nold\n## B\nx\ny" "A" "new" 0 2 2 2
    (by decide) (by decide) (by decide) (by decide) (by decide) (by decide)

/-- Witness for C3 with a single successful `replace_section`. -/
theorem c3_blank_line_collapse_amended_witness :
    hasTripleNL (applyNotepadModifications "## A\nx\n\n\n\ny"
        ([] ++ [mkReplaceSection "A" "z"])).newContent.data = false ∧
    ((applyNotepadModifications "## A\nx\n\n\n\ny"
        ([] ++ [mkReplaceSection "A" "z"])).newContent.data ≠ ['\n', '\n'] →
      containsTripleBlank (splitLines (applyNotepadModifications "## A\nx\n\n\n\ny"
        ([] ++ [mkReplaceSection "A" "z"])).newContent.data) = false) :=
  c3_blank_line_collapse_amended "## A\nx\n\n\n\ny" [] (mkReplaceSection "A" "z")
    (Or.inl rfl) (by decide)

end Dual
